import Mathlib

/-! txforge: fee-aware transaction forging

A shallow embedding of `src/forge.go` (package `tx_forge`).

Modelling conventions:

* A Go `int` is a 64-bit two's complement integer.  It is an `Int` that `IsInt64`
  holds of, and every addition, subtraction and multiplication of `int`s in
  `forge.go` is followed by `wrapInt`, the reduction modulo 2^64 into that range.
  A hypothesis `IsInt64 v` says that `v` is a value a Go `int` can hold.
* Byte slices are lists of naturals (`Bytes`); a nil slice is the empty list.
* A function returning `(value, error)` returns `Except Failure value`; a
  `Failure` is either an error value returned to the caller (`Failure.err`) or a
  run-time panic (`Failure.panic`, a nil pointer dereference or an index out of
  range), which returns nothing.
* The btcd packages (`btcutil`, `chaincfg`, `chainhash`, `txscript`, `wire`) are
  library dependencies whose code is not part of the repository.  The functions
  of btcd that `forge.go` calls are the fields of the structure `Btcd`; every
  general theorem holds for an arbitrary value of that structure.
* `params *Params` is assumed non-nil; `Params.Network` (a pointer) and
  `ForgeTxIn.WIFPrivKey` (a pointer) are options.
-/

namespace TxForge

/-! ## Data model -/

/-- Byte slices. -/
abbrev Bytes := List Nat

/-- Go: `math.MaxInt64`, the largest `int`. -/
def MaxInt64 : Int := 9223372036854775807

/-- Go: `math.MinInt64`, the smallest `int`. -/
def MinInt64 : Int := -9223372036854775808

/-- The integer is a value of the Go type `int`. -/
def IsInt64 (x : Int) : Prop := -9223372036854775808 ≤ x ∧ x ≤ 9223372036854775807

instance (x : Int) : Decidable (IsInt64 x) := by
  unfold IsInt64
  infer_instance

/-- The `int` that Go arithmetic yields where the integers yield `x`: `x` reduced modulo
2^64 into the range of `int`. -/
def wrapInt (x : Int) : Int :=
  (x + 9223372036854775808) % 18446744073709551616 - 9223372036854775808

/-- The text of an error produced inside btcd. -/
abbrev LibError := String

/-- Go: `type UTXO struct`. -/
structure UTXO where
  TxID : String
  Vout : Nat
  Value : Int
  PubKeyScript : Bytes
deriving DecidableEq, Repr

/-- The `btcutil.WIF` value behind `*btcutil.WIF`: the private key it carries. -/
structure WIF where
  PrivKey : Bytes
deriving DecidableEq, Repr

/-- Go: `type ForgeTxIn struct`; `WIFPrivKey` is a pointer and may be nil. -/
structure ForgeTxIn where
  Utxo : UTXO
  WIFPrivKey : Option WIF
deriving DecidableEq, Repr

/-- Go: `type ForgeTxOut struct`. -/
structure ForgeTxOut where
  Value : Int
  Address : String
deriving DecidableEq, Repr

/-- The `chaincfg.Params` value behind `*chaincfg.Params`, identified by its name. -/
structure ChainParams where
  Name : String
deriving DecidableEq, Repr

/-- Go: `type Params struct`; `Network` is a pointer and may be nil. -/
structure Params where
  FeeRate : Int
  Network : Option ChainParams
  NeedToSign : Bool
deriving DecidableEq, Repr

/-- Go: `type ForgeSummary struct`. -/
structure ForgeSummary where
  Fee : Int
  TotalInput : Int
  TotalOutput : Int
deriving DecidableEq, Repr

/-- Go: `wire.OutPoint`. -/
structure OutPoint where
  Hash : Bytes
  Index : Nat
deriving DecidableEq, Repr

/-- Go: `wire.TxOut`. -/
structure TxOut where
  Value : Int
  PkScript : Bytes
deriving DecidableEq, Repr

/-- Go: `wire.TxIn`. -/
structure TxIn where
  PreviousOutPoint : OutPoint
  SignatureScript : Bytes
  Witness : List Bytes
  Sequence : Nat
deriving DecidableEq, Repr

/-- Go: `wire.MsgTx`. -/
structure MsgTx where
  Version : Int
  TxIn : List TxIn
  TxOut : List TxOut
  LockTime : Nat
deriving DecidableEq, Repr

/-- Go: `wire.TxVersion`. -/
def TxVersion : Int := 1

/-- Go: `wire.MaxTxInSequenceNum`, the sequence number `wire.NewTxIn` sets. -/
def MaxTxInSequenceNum : Nat := 0xffffffff

/-- The map `outPointsMap` of `forgeTx`, keyed by outpoint. -/
abbrev PrevOuts := List (OutPoint × TxOut)

/-- Go: `outPointsMap[k] = v`. -/
def PrevOuts.set (m : PrevOuts) (k : OutPoint) (v : TxOut) : PrevOuts :=
  (k, v) :: m.filter (fun e => decide (e.1 ≠ k))

/-- Go: `outPointsMap[k]` as read by the `prevOutputFetcher`. -/
def PrevOuts.fetch (m : PrevOuts) (k : OutPoint) : Option TxOut :=
  (m.find? (fun e => decide (e.1 = k))).map Prod.snd

/-- An address value of `btcutil` (`btcutil.Address`). -/
inductive Address where
  | pubKey (serialized : Bytes)
  | pubKeyHash (hash : Bytes)
  | scriptHash (hash : Bytes)
  | witnessPubKeyHash (program : Bytes)
  | other (script : Bytes)
deriving DecidableEq, Repr

/-- Go: `*txscript.TxSigHashes`, the cached sighash midstate. -/
abbrev SigHashes := Bytes

/-- Go: `*txscript.Engine`, the arguments `txscript.NewEngine` was given. -/
structure Engine where
  scriptPubKey : Bytes
  tx : MsgTx
  txIdx : Nat
  sigHashes : SigHashes
  inputAmount : Int
  prevOuts : PrevOuts
deriving DecidableEq, Repr

/-- The functions of btcd that `forge.go` calls. -/
structure Btcd where
  /-- Go: `chainhash.NewHashFromStr`. -/
  NewHashFromStr : String → Except LibError Bytes
  /-- Go: `wif.PrivKey.PubKey().SerializeCompressed()`. -/
  SerializeCompressedPubKey : WIF → Bytes
  /-- Go: `btcutil.NewAddressPubKey`. -/
  NewAddressPubKey : Bytes → ChainParams → Except LibError Address
  /-- Go: `btcutil.Hash160`. -/
  Hash160 : Bytes → Bytes
  /-- Go: the method `ScriptAddress` of a `btcutil.Address`. -/
  ScriptAddress : Address → Bytes
  /-- Go: `btcutil.NewAddressPubKeyHash`. -/
  NewAddressPubKeyHash : Bytes → ChainParams → Except LibError Address
  /-- Go: `btcutil.NewAddressWitnessPubKeyHash`. -/
  NewAddressWitnessPubKeyHash : Bytes → ChainParams → Except LibError Address
  /-- Go: `txscript.PayToAddrScript`. -/
  PayToAddrScript : Address → Except LibError Bytes
  /-- Go: `btcutil.DecodeAddress`. -/
  DecodeAddress : String → ChainParams → Except LibError Address
  /-- Go: `(*wire.MsgTx).SerializeSize`. -/
  SerializeSize : MsgTx → Nat
  /-- Go: `(*wire.MsgTx).SerializeSizeStripped`. -/
  SerializeSizeStripped : MsgTx → Nat
  /-- Go: `txscript.NewTxSigHashes`. -/
  NewTxSigHashes : MsgTx → PrevOuts → SigHashes
  /-- Go: `txscript.WitnessSignature` with `txscript.SigHashAll` and `compress = true`. -/
  WitnessSignature : MsgTx → SigHashes → Nat → Int → Bytes → WIF → Except LibError (List Bytes)
  /-- Go: `txscript.NewEngine` with `txscript.StandardVerifyFlags` and a nil signature cache. -/
  NewEngine : Bytes → MsgTx → Nat → SigHashes → Int → PrevOuts → Except LibError Engine
  /-- Go: `(*txscript.Engine).Execute`. -/
  Execute : Engine → Except LibError Unit

/-- The error values `forge.go` returns. -/
inductive ForgeError where
  /-- `"has not enough txins or txouts: %d, %d"`. -/
  | notEnoughTxInsOrTxOuts (nIns nOuts : Nat)
  /-- `"invalid FeeRate: %d"`. -/
  | invalidFeeRate (feeRate : Int)
  /-- `"params.Network can't be nil"`. -/
  | networkNil
  /-- `"outputsSum > inputsSum: %d > %d"`. -/
  | outputsSumGreater (outputsSum inputsSum : Int)
  /-- `"fee is greater than all txouts"`. -/
  | feeGreaterThanAllTxouts
  /-- `errors.Wrapf(err, "txId: %s", txid)`. -/
  | txId (txid : String) (cause : LibError)
  /-- An error of btcd returned unchanged. -/
  | lib (cause : LibError)
deriving DecidableEq, Repr

/-- How a call ends when it yields no result. -/
inductive Failure where
  /-- The call returns `nil, nil, err`. -/
  | err (e : ForgeError)
  /-- The call panics (nil pointer dereference, index out of range). -/
  | panic
deriving DecidableEq, Repr

/-! ## `createTxIn` and the exported helpers -/

/-- The placeholder of `createTxIn` when signing is not requested. -/
def placeholderWitnessProgram : Bytes :=
  [0, 1, 0, 2, 0, 3, 0, 4, 0, 5, 0, 6, 0, 7, 0, 8, 0, 9, 0, 10]

/-- Go: `createTxIn`.  Returns the input and the updated `outPointsMap`. -/
def createTxIn (lib : Btcd) (txin : ForgeTxIn) (outPointsMap : PrevOuts) (params : Params) :
    Except Failure (TxIn × PrevOuts) :=
  match lib.NewHashFromStr txin.Utxo.TxID with
  | .error e => .error (.err (.txId txin.Utxo.TxID e))
  | .ok utxoHash =>
    let outPoint : OutPoint := ⟨utxoHash, txin.Utxo.Vout⟩
    let outPointsMap := outPointsMap.set outPoint ⟨txin.Utxo.Value, txin.Utxo.PubKeyScript⟩
    if params.NeedToSign then
      match txin.WIFPrivKey with
      | none => .error .panic
      | some wif =>
        match params.Network with
        | none => .error .panic
        | some net =>
          match lib.NewAddressPubKey (lib.SerializeCompressedPubKey wif) net with
          | .error e => .error (.err (.lib e))
          | .ok addrPubKey =>
            match lib.NewAddressPubKeyHash (lib.Hash160 (lib.ScriptAddress addrPubKey)) net with
            | .error e => .error (.err (.lib e))
            | .ok p2kh =>
              match lib.NewAddressWitnessPubKeyHash (lib.ScriptAddress p2kh) net with
              | .error e => .error (.err (.lib e))
              | .ok p2wkhAddr =>
                match lib.PayToAddrScript p2wkhAddr with
                | .error e => .error (.err (.lib e))
                | .ok witnessProgram =>
                  .ok (⟨outPoint, [22] ++ witnessProgram, [], MaxTxInSequenceNum⟩, outPointsMap)
    else
      .ok (⟨outPoint, [22] ++ placeholderWitnessProgram, [], MaxTxInSequenceNum⟩, outPointsMap)

/-- Go: `GetWitnessProgramFromPrivateKey`. -/
def GetWitnessProgramFromPrivateKey (lib : Btcd) (wifPrivateKey : Option WIF)
    (networkParams : Option ChainParams) : Except Failure Bytes :=
  match wifPrivateKey with
  | none => .error .panic
  | some wif =>
    match networkParams with
    | none => .error .panic
    | some net =>
      match lib.NewAddressPubKey (lib.SerializeCompressedPubKey wif) net with
      | .error e => .error (.err (.lib e))
      | .ok addrPubKey =>
        match lib.NewAddressPubKeyHash (lib.Hash160 (lib.ScriptAddress addrPubKey)) net with
        | .error e => .error (.err (.lib e))
        | .ok p2kh =>
          match lib.NewAddressWitnessPubKeyHash (lib.ScriptAddress p2kh) net with
          | .error e => .error (.err (.lib e))
          | .ok p2wkhAddr =>
            match lib.PayToAddrScript p2wkhAddr with
            | .error e => .error (.err (.lib e))
            | .ok script => .ok script

/-- Go: `txscript.OP_HASH160`. -/
def OP_HASH160 : Nat := 0xa9

/-- Go: `txscript.OP_DATA_20`. -/
def OP_DATA_20 : Nat := 0x14

/-- Go: `txscript.OP_EQUAL`. -/
def OP_EQUAL : Nat := 0x87

/-- Go: `GetPkScriptFromWitnessProgram`. -/
def GetPkScriptFromWitnessProgram (lib : Btcd) (witnessProgram : Bytes) : Bytes :=
  let pkScript2 := [OP_HASH160, OP_DATA_20] ++ lib.Hash160 witnessProgram
  pkScript2 ++ [OP_EQUAL]

/-! ## `forgeTx` -/

/-- The first loop of `forgeTx`: `inputsSum`, the inputs added to `redeemTx` and
`outPointsMap` after the inputs still to be visited. -/
def inputsLoop (lib : Btcd) (params : Params) :
    List ForgeTxIn → Int × List TxIn × PrevOuts → Except Failure (Int × List TxIn × PrevOuts)
  | [], st => .ok st
  | txin :: rest, (inputsSum, redeemTxIns, outPointsMap) =>
    let inputsSum := wrapInt (inputsSum + txin.Utxo.Value)
    match createTxIn lib txin outPointsMap params with
    | .error f => .error f
    | .ok (redeemTxIn, outPointsMap) =>
      inputsLoop lib params rest (inputsSum, redeemTxIns ++ [redeemTxIn], outPointsMap)

/-- The second loop of `forgeTx` ("output validation"): `outputsSum` and the
outputs added to `redeemTx` after the outputs still to be visited. -/
def outputsLoop (lib : Btcd) (net : ChainParams) :
    List ForgeTxOut → Int × List TxOut → Except Failure (Int × List TxOut)
  | [], st => .ok st
  | txout :: rest, (outputsSum, redeemTxOuts) =>
    match lib.DecodeAddress txout.Address net with
    | .error e => .error (.err (.lib e))
    | .ok destinationAddr =>
      match lib.PayToAddrScript destinationAddr with
      | .error e => .error (.err (.lib e))
      | .ok destinationAddrByte =>
        outputsLoop lib net rest
          (wrapInt (outputsSum + txout.Value),
            redeemTxOuts ++ [⟨txout.Value, destinationAddrByte⟩])

/-- Go: `txin.Witness = witnessSignature` for the input at index `i` of the transaction. -/
def MsgTx.setWitness (tx : MsgTx) (i : Nat) (w : List Bytes) : MsgTx :=
  ⟨tx.Version,
   tx.TxIn.modify (fun txin => ⟨txin.PreviousOutPoint, txin.SignatureScript, w, txin.Sequence⟩) i,
   tx.TxOut, tx.LockTime⟩

/-- The signing loop of `forgeTx` over the input indices still to be visited. -/
def signLoop (lib : Btcd) (txins : List ForgeTxIn) (outPointsMap : PrevOuts) :
    List Nat → MsgTx → Except Failure MsgTx
  | [], redeemTx => .ok redeemTx
  | i :: rest, redeemTx =>
    match redeemTx.TxIn[i]?, txins[i]? with
    | some txin, some forgeIn =>
      let sigHashes := lib.NewTxSigHashes redeemTx outPointsMap
      match forgeIn.WIFPrivKey with
      | none => .error .panic
      | some wif =>
        match lib.WitnessSignature redeemTx sigHashes i forgeIn.Utxo.Value
            (txin.SignatureScript.drop 1) wif with
        | .error e => .error (.err (.lib e))
        | .ok witnessSignature =>
          let redeemTx := redeemTx.setWitness i witnessSignature
          match lib.NewEngine forgeIn.Utxo.PubKeyScript redeemTx i sigHashes
              forgeIn.Utxo.Value outPointsMap with
          | .error e => .error (.err (.lib e))
          | .ok vm =>
            match lib.Execute vm with
            | .error e => .error (.err (.lib e))
            | .ok _ => signLoop lib txins outPointsMap rest redeemTx
    | _, _ => .error .panic

/-- Go: `forgeTx`. -/
def forgeTx (lib : Btcd) (txins : List ForgeTxIn) (txouts : List ForgeTxOut) (params : Params) :
    Except Failure (MsgTx × ForgeSummary) :=
  if txins.length = 0 ∨ txouts.length = 0 then
    .error (.err (.notEnoughTxInsOrTxOuts txins.length txouts.length))
  else if params.FeeRate < 1 then
    .error (.err (.invalidFeeRate params.FeeRate))
  else
    match params.Network with
    | none => .error (.err .networkNil)
    | some net =>
      match inputsLoop lib params txins (0, [], []) with
      | .error f => .error f
      | .ok (inputsSum, redeemTxIns, outPointsMap) =>
        match outputsLoop lib net txouts (0, []) with
        | .error f => .error f
        | .ok (outputsSum, redeemTxOuts) =>
          if outputsSum > inputsSum then
            .error (.err (.outputsSumGreater outputsSum inputsSum))
          else
            let redeemTx : MsgTx := ⟨TxVersion, redeemTxIns, redeemTxOuts, 0⟩
            let summary : ForgeSummary :=
              ⟨wrapInt (inputsSum - outputsSum), inputsSum, outputsSum⟩
            if params.NeedToSign then
              match signLoop lib txins outPointsMap (List.range redeemTx.TxIn.length) redeemTx with
              | .error f => .error f
              | .ok redeemTx => .ok (redeemTx, summary)
            else
              .ok (redeemTx, summary)

/-! ## `ForgeTx` -/

/-- Go: `vSize := (sizeWithoutWitness*3 + sizeWithWitness) / 4`.  The two sizes are byte
lengths of an encoding held in memory, so this sum of natural numbers is the Go value. -/
def vSize (lib : Btcd) (redeemTx : MsgTx) : Nat :=
  let sizeWithWitness := lib.SerializeSize redeemTx
  let sizeWithoutWitness := lib.SerializeSizeStripped redeemTx
  (sizeWithoutWitness * 3 + sizeWithWitness) / 4

/-- Go: `calculatedFee := vSize * params.FeeRate`, a product of `int`s. -/
def calculatedFee (lib : Btcd) (redeemTx : MsgTx) (params : Params) : Int :=
  wrapInt ((vSize lib redeemTx : Int) * params.FeeRate)

/-- One iteration of the loop `for _, out := range txouts` of `ForgeTx`, on the state
`(calculatedFee, txOutsWithFee)`. -/
def feeStep (st : Int × List ForgeTxOut) (out : ForgeTxOut) : Int × List ForgeTxOut :=
  let txOutValue := wrapInt (out.Value - st.1)
  if txOutValue < 0 then
    (wrapInt (st.1 - out.Value), st.2)
  else
    (0, st.2 ++ [⟨txOutValue, out.Address⟩])

/-- The list `txOutsWithFee` that `ForgeTx` hands to the second call of `forgeTx`. -/
def txOutsWithFee (fee : Int) (txouts : List ForgeTxOut) : List ForgeTxOut :=
  (txouts.foldl feeStep (fee, [])).2

/-- Go: `ForgeTx`. -/
def ForgeTx (lib : Btcd) (txins : List ForgeTxIn) (txouts : List ForgeTxOut) (params : Params) :
    Except Failure (MsgTx × ForgeSummary) :=
  match forgeTx lib txins txouts params with
  | .error f => .error f
  | .ok (redeemTx, _) =>
    let outs := txOutsWithFee (calculatedFee lib redeemTx params) txouts
    if outs.length = 0 then
      .error (.err .feeGreaterThanAllTxouts)
    else
      forgeTx lib txins outs params

/-! ## The sizes of the wire encoding, and a library instance for the scenarios of the tests -/

/-- Go (btcd): `wire.VarIntSerializeSize`. -/
def VarIntSerializeSize (val : Nat) : Nat :=
  if val < 0xfd then 1
  else if val ≤ 0xffff then 3
  else if val ≤ 0xffffffff then 5
  else 9

/-- Go (btcd): `(*wire.TxIn).SerializeSize`: outpoint 36 bytes, sequence 4 bytes, the
length of the signature script as a varint, the signature script. -/
def TxIn.SerializeSize (t : TxIn) : Nat :=
  40 + VarIntSerializeSize t.SignatureScript.length + t.SignatureScript.length

/-- Go (btcd): `(*wire.TxOut).SerializeSize`: value 8 bytes, the length of the locking
script as a varint, the locking script. -/
def TxOut.SerializeSize (t : TxOut) : Nat :=
  8 + VarIntSerializeSize t.PkScript.length + t.PkScript.length

/-- Go (btcd): `wire.TxWitness.SerializeSize`. -/
def witnessSerializeSize (w : List Bytes) : Nat :=
  VarIntSerializeSize w.length +
    (w.map (fun witItem => VarIntSerializeSize witItem.length + witItem.length)).sum

/-- Go (btcd): `(*wire.MsgTx).baseSize`, which is `SerializeSizeStripped`. -/
def MsgTx.baseSize (msg : MsgTx) : Nat :=
  8 + VarIntSerializeSize msg.TxIn.length + VarIntSerializeSize msg.TxOut.length +
    (msg.TxIn.map TxIn.SerializeSize).sum + (msg.TxOut.map TxOut.SerializeSize).sum

/-- Go (btcd): `(*wire.MsgTx).HasWitness`. -/
def MsgTx.HasWitness (msg : MsgTx) : Bool :=
  msg.TxIn.any (fun txIn => decide (txIn.Witness.length ≠ 0))

/-- Go (btcd): `(*wire.MsgTx).SerializeSize`: with a witness, two bytes of marker and
flag and the witness of every input are added to the base size. -/
def MsgTx.wireSize (msg : MsgTx) : Nat :=
  if msg.HasWitness then
    msg.baseSize + 2 + (msg.TxIn.map (fun txin => witnessSerializeSize txin.Witness)).sum
  else
    msg.baseSize

/-- One hexadecimal digit. -/
def hexDigit (c : Char) : Option Nat :=
  let n := c.toNat
  if 48 ≤ n ∧ n ≤ 57 then some (n - 48)
  else if 97 ≤ n ∧ n ≤ 102 then some (n - 87)
  else if 65 ≤ n ∧ n ≤ 70 then some (n - 55)
  else none

/-- Go: `hex.Decode` on an even number of characters. -/
def hexDecode : List Char → Option Bytes
  | [] => some []
  | [_] => none
  | a :: b :: rest =>
    match hexDigit a, hexDigit b, hexDecode rest with
    | some x, some y, some r => some ((16 * x + y) :: r)
    | _, _, _ => none

/-- Go (btcd): `chainhash.NewHashFromStr`: at most 64 hexadecimal digits, read as a
byte-reversed 32-byte hash. -/
def newHashFromStr (s : String) : Except LibError Bytes :=
  if s.length > 64 then .error "max hash string length is 64 bytes"
  else
    let src := if s.length % 2 = 0 then s.toList else [Char.ofNat 48] ++ s.toList
    match hexDecode src with
    | none => .error "encoding/hex: invalid byte"
    | some bs => .ok ((List.replicate (32 - bs.length) 0 ++ bs).reverse)

/-- The testnet parameters `chaincfg.TestNet3Params`. -/
def TestNet3Params : ChainParams := ⟨"testnet3"⟩

/-- The main network parameters `chaincfg.MainNetParams`. -/
def MainNetParams : ChainParams := ⟨"mainnet"⟩

/-- The script hash of the testnet address `2N6SjJNhBgHqvgLZ8Wxc7Yi6jBSGjT9HNPL`
(`pkScript1` of the tests is `a914 90c6...6f5e 87`). -/
def p2sh1Hash : Bytes :=
  [0x90, 0xc6, 0xad, 0xda, 0xd6, 0xab, 0xcb, 0x92, 0x9b, 0x6e,
   0xdd, 0x28, 0x33, 0x39, 0x7a, 0xed, 0x1b, 0x5c, 0x6f, 0x5e]

/-- Go (btcd): `txscript.PayToAddrScript` on the address kinds of `btcutil`. -/
def payToAddrScript : Address → Except LibError Bytes
  | .pubKey serialized => .ok ([serialized.length] ++ serialized ++ [0xac])
  | .pubKeyHash hash => .ok ([0x76, 0xa9, 0x14] ++ hash ++ [0x88, 0xac])
  | .scriptHash hash => .ok ([0xa9, 0x14] ++ hash ++ [0x87])
  | .witnessPubKeyHash program => .ok ([0x00, 0x14] ++ program)
  | .other _ => .error "unsupported address type"

/-- A library instance for the scenarios of `forge_test.go`: sizes and scripts as btcd
computes them, `DecodeAddress` restricted to the address the tests pay to, and the
key and signature primitives replaced by fixed-length stand-ins (a 72-byte signature
and a 33-byte public key) that the script engine accepts. -/
def testLib : Btcd where
  NewHashFromStr := newHashFromStr
  SerializeCompressedPubKey := fun wif => [2] ++ (wif.PrivKey ++ List.replicate 32 0).take 32
  NewAddressPubKey := fun serialized _ =>
    if serialized.length = 33 then .ok (.pubKey serialized) else .error "invalid pub key"
  Hash160 := fun b => (b ++ List.replicate 20 0).take 20
  ScriptAddress := fun a =>
    match a with
    | .pubKey serialized => serialized
    | .pubKeyHash hash => hash
    | .scriptHash hash => hash
    | .witnessPubKeyHash program => program
    | .other script => script
  NewAddressPubKeyHash := fun hash _ =>
    if hash.length = 20 then .ok (.pubKeyHash hash) else .error "pkHash must be 20 bytes"
  NewAddressWitnessPubKeyHash := fun program _ =>
    if program.length = 20 then .ok (.witnessPubKeyHash program)
    else .error "witness program must be 20 bytes for p2wpkh"
  PayToAddrScript := payToAddrScript
  DecodeAddress := fun addr net =>
    if addr = "2N6SjJNhBgHqvgLZ8Wxc7Yi6jBSGjT9HNPL" ∧ net = TestNet3Params then
      .ok (.scriptHash p2sh1Hash)
    else .error "unknown address type"
  SerializeSize := MsgTx.wireSize
  SerializeSizeStripped := MsgTx.baseSize
  NewTxSigHashes := fun _ _ => []
  WitnessSignature := fun _ _ _ _ _ wif =>
    .ok [List.replicate 72 0, [2] ++ (wif.PrivKey ++ List.replicate 32 0).take 32]
  NewEngine := fun scriptPubKey tx txIdx sigHashes inputAmount prevOuts =>
    .ok ⟨scriptPubKey, tx, txIdx, sigHashes, inputAmount, prevOuts⟩
  Execute := fun _ => .ok ()

/-- The transaction id `prevTxId1` of the tests. -/
def prevTxId1 : String := "0bd2fd0e9b5629105884fc4c42f77ae48a6a4fb649df6f678cc6bac28e39e2ad"

/-- The address `p2sh1` of the tests. -/
def p2sh1 : String := "2N6SjJNhBgHqvgLZ8Wxc7Yi6jBSGjT9HNPL"

/-- The locking script `pkScript1` of the tests, 23 bytes. -/
def pkScript1 : Bytes := [0xa9, 0x14] ++ p2sh1Hash ++ [0x87]

/-- The key `privKey1` of the tests, as a decoded WIF (the key bytes are not used by
any size or amount). -/
def wifPrivKey1 : WIF := ⟨[1]⟩

/-- The parameters `testParams` of the tests: `DefaultFeeRate`, testnet, and
`NeedToSign` left at its zero value. -/
def testParams : Params := ⟨2, some TestNet3Params, false⟩

/-! ## SHA-256, RIPEMD-160 and `btcutil.Hash160` -/

/-- A 32-bit word rotated right. -/
def rotr32 (x n : Nat) : Nat := ((x >>> n) ||| (x <<< (32 - n))) % 4294967296

/-- A 32-bit word rotated left. -/
def rotl32 (x n : Nat) : Nat := ((x <<< n) ||| (x >>> (32 - n))) % 4294967296

/-- The complement of a 32-bit word. -/
def not32 (x : Nat) : Nat := 4294967295 - x % 4294967296

/-- Big-endian bytes of a number, `n` of them. -/
def bytesBE : Nat → Nat → Bytes
  | 0, _ => []
  | n + 1, x => bytesBE n (x / 256) ++ [x % 256]

/-- Little-endian bytes of a number, `n` of them. -/
def bytesLE : Nat → Nat → Bytes
  | 0, _ => []
  | n + 1, x => (x % 256) :: bytesLE n (x / 256)

/-- The number a list of bytes spells, big-endian. -/
def natBE (bs : Bytes) : Nat := bs.foldl (fun acc b => acc * 256 + b) 0

/-- The number a list of bytes spells, little-endian. -/
def natLE (bs : Bytes) : Nat := bs.foldr (fun b acc => acc * 256 + b) 0

/-- The words of `size` bytes of a list of bytes, `count` of them. -/
def chunks (size : Nat) : Nat → Bytes → List Bytes
  | 0, _ => []
  | count + 1, bs => bs.take size :: chunks size count (bs.drop size)

/-- The padding of SHA-256 and RIPEMD-160: a bit 1, zero bytes up to 56 modulo 64. -/
def mdPad (len : Nat) : Bytes := [0x80] ++ List.replicate ((119 - len % 64) % 64) 0

/-- The round constants of SHA-256: the first 32 bits of the fractional parts of the cube
roots of the first 64 primes. -/
def sha256K : List Nat :=
  [1116352408, 1899447441, 3049323471, 3921009573, 961987163, 1508970993,
   2453635748, 2870763221, 3624381080, 310598401, 607225278, 1426881987,
   1925078388, 2162078206, 2614888103, 3248222580, 3835390401, 4022224774,
   264347078, 604807628, 770255983, 1249150122, 1555081692, 1996064986,
   2554220882, 2821834349, 2952996808, 3210313671, 3336571891, 3584528711,
   113926993, 338241895, 666307205, 773529912, 1294757372, 1396182291,
   1695183700, 1986661051, 2177026350, 2456956037, 2730485921, 2820302411,
   3259730800, 3345764771, 3516065817, 3600352804, 4094571909, 275423344,
   430227734, 506948616, 659060556, 883997877, 958139571, 1322822218,
   1537002063, 1747873779, 1955562222, 2024104815, 2227730452, 2361852424,
   2428436474, 2756734187, 3204031479, 3329325298]

/-- The initial state of SHA-256: the first 32 bits of the fractional parts of the square
roots of the first 8 primes. -/
def sha256Init : List Nat :=
  [1779033703, 3144134277, 1013904242, 2773480762,
   1359893119, 2600822924, 528734635, 1541459225]

/-- The message schedule, newest word first; `n` more words are added. -/
def sha256Schedule : Nat → List Nat → List Nat
  | 0, ws => ws
  | n + 1, ws =>
    let w2 := ws.getD 1 0
    let w7 := ws.getD 6 0
    let w15 := ws.getD 14 0
    let w16 := ws.getD 15 0
    let s0 := rotr32 w15 7 ^^^ rotr32 w15 18 ^^^ (w15 >>> 3)
    let s1 := rotr32 w2 17 ^^^ rotr32 w2 19 ^^^ (w2 >>> 10)
    sha256Schedule n (((w16 + s0 + w7 + s1) % 4294967296) :: ws)

/-- One round of the SHA-256 compression on the state `[a, b, c, d, e, f, g, h]`. -/
def sha256Round (st : List Nat) (kw : Nat × Nat) : List Nat :=
  match st with
  | [a, b, c, d, e, f, g, h] =>
    let s1 := rotr32 e 6 ^^^ rotr32 e 11 ^^^ rotr32 e 25
    let ch := (e &&& f) ^^^ (not32 e &&& g)
    let t1 := (h + s1 + ch + kw.1 + kw.2) % 4294967296
    let s0 := rotr32 a 2 ^^^ rotr32 a 13 ^^^ rotr32 a 22
    let maj := (a &&& b) ^^^ (a &&& c) ^^^ (b &&& c)
    let t2 := (s0 + maj) % 4294967296
    [(t1 + t2) % 4294967296, a, b, c, (d + t1) % 4294967296, e, f, g]
  | _ => st

/-- The SHA-256 compression of one 64-byte block. -/
def sha256Block (h : List Nat) (block : Bytes) : List Nat :=
  let w16 := (chunks 4 16 block).map natBE
  let ws := (sha256Schedule 48 w16.reverse).reverse
  let st := (sha256K.zip ws).foldl sha256Round h
  List.zipWith (fun x y => (x + y) % 4294967296) h st

/-- SHA-256. -/
def sha256 (msg : Bytes) : Bytes :=
  let padded := msg ++ mdPad msg.length ++ bytesBE 8 (8 * msg.length)
  let h := (chunks 64 (padded.length / 64) padded).foldl sha256Block sha256Init
  (h.map (bytesBE 4)).flatten

/-- The message word order of the left line of RIPEMD-160. -/
def ripemdR1 : List Nat :=
  [0, 1, 2, 3, 4, 5, 6, 7, 8, 9, 10, 11, 12, 13, 14, 15, 7, 4, 13, 1,
   10, 6, 15, 3, 12, 0, 9, 5, 2, 14, 11, 8, 3, 10, 14, 4, 9, 15, 8, 1,
   2, 7, 0, 6, 13, 11, 5, 12, 1, 9, 11, 10, 0, 8, 12, 4, 13, 3, 7, 15,
   14, 5, 6, 2, 4, 0, 5, 9, 7, 12, 2, 10, 14, 1, 3, 8, 11, 6, 15, 13]
/-- The message word order of the right line of RIPEMD-160. -/
def ripemdR2 : List Nat :=
  [5, 14, 7, 0, 9, 2, 11, 4, 13, 6, 15, 8, 1, 10, 3, 12, 6, 11, 3, 7,
   0, 13, 5, 10, 14, 15, 8, 12, 4, 9, 1, 2, 15, 5, 1, 3, 7, 14, 6, 9,
   11, 8, 12, 2, 10, 0, 4, 13, 8, 6, 4, 1, 3, 11, 15, 0, 5, 12, 2, 13,
   9, 7, 10, 14, 12, 15, 10, 4, 1, 5, 8, 7, 6, 2, 13, 14, 0, 3, 9, 11]
/-- The rotations of the left line of RIPEMD-160. -/
def ripemdS1 : List Nat :=
  [11, 14, 15, 12, 5, 8, 7, 9, 11, 13, 14, 15, 6, 7, 9, 8, 7, 6, 8, 13,
   11, 9, 7, 15, 7, 12, 15, 9, 11, 7, 13, 12, 11, 13, 6, 7, 14, 9, 13, 15,
   14, 8, 13, 6, 5, 12, 7, 5, 11, 12, 14, 15, 14, 15, 9, 8, 9, 14, 5, 6,
   8, 6, 5, 12, 9, 15, 5, 11, 6, 8, 13, 12, 5, 12, 13, 14, 11, 8, 5, 6]
/-- The rotations of the right line of RIPEMD-160. -/
def ripemdS2 : List Nat :=
  [8, 9, 9, 11, 13, 15, 15, 5, 7, 7, 8, 11, 14, 14, 12, 6, 9, 13, 15, 7,
   12, 8, 9, 11, 7, 7, 12, 7, 6, 15, 13, 11, 9, 7, 15, 11, 8, 6, 6, 14,
   12, 13, 5, 14, 13, 13, 7, 5, 15, 5, 8, 11, 14, 14, 6, 14, 6, 9, 12, 9,
   12, 5, 15, 8, 8, 5, 12, 9, 12, 5, 14, 6, 8, 13, 6, 5, 15, 13, 11, 11]
/-- The constants of the left line of RIPEMD-160. -/
def ripemdK1 : List Nat := [0, 0x5A827999, 0x6ED9EBA1, 0x8F1BBCDC, 0xA953FD4E]
/-- The constants of the right line of RIPEMD-160. -/
def ripemdK2 : List Nat := [0x50A28BE6, 0x5C4DD124, 0x6D703EF3, 0x7A6D76E9, 0]

/-- The boolean function of round `j / 16` of RIPEMD-160. -/
def ripemdF (j x y z : Nat) : Nat :=
  if j < 16 then x ^^^ y ^^^ z
  else if j < 32 then (x &&& y) ||| (not32 x &&& z)
  else if j < 48 then (x ||| not32 y) ^^^ z
  else if j < 64 then (x &&& z) ||| (y &&& not32 z)
  else x ^^^ (y ||| not32 z)

/-- One step of one line of RIPEMD-160 on the state `[a, b, c, d, e]`. -/
def ripemdStep (x : List Nat) (f k r s : Nat) (st : List Nat) : List Nat :=
  match st with
  | [a, b, c, d, e] =>
    let t := (rotl32 ((a + f + x.getD r 0 + k) % 4294967296) s + e) % 4294967296
    [e, t, b, rotl32 c 10, d]
  | _ => st

/-- The steps `j, j+1, ...` of the left line, `n` of them. -/
def ripemdLeft (x : List Nat) : Nat → Nat → List Nat → List Nat
  | 0, _, st => st
  | n + 1, j, st =>
    ripemdLeft x n (j + 1)
      (ripemdStep x (ripemdF j (st.getD 1 0) (st.getD 2 0) (st.getD 3 0))
        (ripemdK1.getD (j / 16) 0) (ripemdR1.getD j 0) (ripemdS1.getD j 0) st)

/-- The steps `j, j+1, ...` of the right line, `n` of them. -/
def ripemdRight (x : List Nat) : Nat → Nat → List Nat → List Nat
  | 0, _, st => st
  | n + 1, j, st =>
    ripemdRight x n (j + 1)
      (ripemdStep x (ripemdF (79 - j) (st.getD 1 0) (st.getD 2 0) (st.getD 3 0))
        (ripemdK2.getD (j / 16) 0) (ripemdR2.getD j 0) (ripemdS2.getD j 0) st)

/-- The RIPEMD-160 compression of one 64-byte block. -/
def ripemdBlock (h : List Nat) (block : Bytes) : List Nat :=
  let x := (chunks 4 16 block).map natLE
  let l := ripemdLeft x 80 0 h
  let r := ripemdRight x 80 0 h
  [(h.getD 1 0 + l.getD 2 0 + r.getD 3 0) % 4294967296,
   (h.getD 2 0 + l.getD 3 0 + r.getD 4 0) % 4294967296,
   (h.getD 3 0 + l.getD 4 0 + r.getD 0 0) % 4294967296,
   (h.getD 4 0 + l.getD 0 0 + r.getD 1 0) % 4294967296,
   (h.getD 0 0 + l.getD 1 0 + r.getD 2 0) % 4294967296]

/-- RIPEMD-160. -/
def ripemd160 (msg : Bytes) : Bytes :=
  let padded := msg ++ mdPad msg.length ++ bytesLE 8 (8 * msg.length)
  let h := (chunks 64 (padded.length / 64) padded).foldl ripemdBlock
    [0x67452301, 0xEFCDAB89, 0x98BADCFE, 0x10325476, 0xC3D2E1F0]
  (h.map (bytesLE 4)).flatten

/-- Go (btcd): `btcutil.Hash160`, RIPEMD-160 of SHA-256. -/
def hash160 (b : Bytes) : Bytes := ripemd160 (sha256 b)

/-- The library instance of the scenarios with `Hash160` computed: RIPEMD-160 of
SHA-256. -/
def hashLib : Btcd := { testLib with Hash160 := hash160 }

/-- The witness program of the key `privKey1` of the tests on testnet: `OP_0`, a push of
20 bytes, the hash of the compressed public key. -/
def witnessProgram1 : Bytes :=
  [0x00, 0x14, 0x6c, 0x00, 0x6f, 0xd7, 0x09, 0x0c, 0xde, 0x86, 0x51, 0x1b,
   0xdc, 0x2a, 0xee, 0x10, 0x67, 0x3a, 0x77, 0x2c, 0x3d, 0xa5]

/-- The witness program of the key `privKey2` of the tests on testnet: `OP_0`, a push of
20 bytes, the hash of the compressed public key. -/
def witnessProgram2 : Bytes :=
  [0x00, 0x14, 0xac, 0x16, 0x50, 0x2f, 0x0f, 0x5f, 0xf8, 0x5e, 0xb9, 0x7b,
   0xb9, 0x04, 0x64, 0xf1, 0x62, 0x10, 0x20, 0x70, 0xad, 0xa6]

/-- The witness program of the key `privKey3` of the tests on testnet: `OP_0`, a push of
20 bytes, the hash of the compressed public key. -/
def witnessProgram3 : Bytes :=
  [0x00, 0x14, 0xe8, 0xae, 0xa3, 0x4a, 0xf0, 0xde, 0xb5, 0x95, 0xb5, 0xbe,
   0x3a, 0x35, 0xf2, 0x0c, 0x5a, 0xfe, 0x4f, 0x19, 0xd8, 0x7e]

/-- The witness program of the key `privKey4` of the tests on testnet: `OP_0`, a push of
20 bytes, the hash of the compressed public key. -/
def witnessProgram4 : Bytes :=
  [0x00, 0x14, 0xcf, 0x9f, 0xf3, 0xe2, 0x14, 0xc7, 0x8e, 0xc9, 0x23, 0x1a,
   0x24, 0x07, 0x5b, 0x7a, 0x5e, 0x2d, 0x7a, 0x91, 0x04, 0x7e]

/-- The witness program of the key `privKey5` of the tests on testnet: `OP_0`, a push of
20 bytes, the hash of the compressed public key. -/
def witnessProgram5 : Bytes :=
  [0x00, 0x14, 0x87, 0x04, 0xc5, 0xa1, 0x7a, 0x30, 0x4a, 0xb1, 0x37, 0xfd,
   0x4f, 0xa9, 0x95, 0xc9, 0x45, 0x24, 0x07, 0x3e, 0x38, 0x3a]

/-! ## Sums, and what the loops of `forgeTx` made of one input or output -/

/-- The sum of the values of the input UTXOs. -/
def sumInputs (txins : List ForgeTxIn) : Int := (txins.map (fun t => t.Utxo.Value)).sum

/-- The sum of the values of a list of requested outputs. -/
def sumOutputs (txouts : List ForgeTxOut) : Int := (txouts.map (fun o => o.Value)).sum

/-- The sum of the values of the outputs of a transaction. -/
def MsgTx.totalOut (tx : MsgTx) : Int := (tx.TxOut.map (fun o => o.Value)).sum

/-- The input without its witness, as `wire.NewTxIn(outPoint, script, nil)` makes it. -/
def TxIn.clearWitness (t : TxIn) : TxIn :=
  ⟨t.PreviousOutPoint, t.SignatureScript, [], t.Sequence⟩

/-- The inputs with the witness removed from index `i` on. -/
def clearWitnessesFrom : Nat → List TxIn → List TxIn
  | _, [] => []
  | 0, t :: ts => t.clearWitness :: clearWitnessesFrom 0 ts
  | i + 1, t :: ts => t :: clearWitnessesFrom i ts

/-- The transaction as the signing loop holds it when it reaches input `i`: the inputs
below `i` carry their witness, the inputs from `i` on have none yet. -/
def MsgTx.clearWitnessFrom (tx : MsgTx) (i : Nat) : MsgTx :=
  ⟨tx.Version, clearWitnessesFrom i tx.TxIn, tx.TxOut, tx.LockTime⟩

/-- Iteration `i` of the signing loop, read off the transaction `tx` the loop ended with:
the witness of input `i` is the one `txscript.WitnessSignature` returned for the
transaction as it was when the loop reached `i`, and the script engine, created for
the locking script and value of the UTXO of input `i` on the transaction with that
witness set, executed without error. -/
def SignedAndVerified (lib : Btcd) (txins : List ForgeTxIn) (outPointsMap : PrevOuts)
    (tx : MsgTx) (i : Nat) : Prop :=
  ∃ forgeIn wif txin,
    txins[i]? = some forgeIn ∧ forgeIn.WIFPrivKey = some wif ∧ tx.TxIn[i]? = some txin ∧
    lib.WitnessSignature (tx.clearWitnessFrom i)
        (lib.NewTxSigHashes (tx.clearWitnessFrom i) outPointsMap) i forgeIn.Utxo.Value
        (txin.SignatureScript.drop 1) wif = .ok txin.Witness ∧
    ∃ vm, lib.NewEngine forgeIn.Utxo.PubKeyScript (tx.clearWitnessFrom (i + 1)) i
        (lib.NewTxSigHashes (tx.clearWitnessFrom i) outPointsMap) forgeIn.Utxo.Value
        outPointsMap = .ok vm ∧ lib.Execute vm = .ok ()

/-- What `createTxIn` made of one input, whatever the map was. -/
def EncodedBy (lib : Btcd) (params : Params) (fin : ForgeTxIn) (tin : TxIn) : Prop :=
  ∃ m0 m1, createTxIn lib fin m0 params = .ok (tin, m1)

/-- What the output loop made of one requested output. -/
def ResolvedBy (lib : Btcd) (net : ChainParams) (o : ForgeTxOut) (t : TxOut) : Prop :=
  t.Value = o.Value ∧
    ∃ a, lib.DecodeAddress o.Address net = .ok a ∧ lib.PayToAddrScript a = .ok t.PkScript

/-! ## The inputs of the scenarios -/

/-- The hash `chainhash.NewHashFromStr` reads from `prevTxId1`. -/
def prevHash1 : Bytes :=
  [173, 226, 57, 142, 194, 186, 198, 140, 103, 111, 223, 73, 182, 79, 106, 138,
   228, 122, 247, 66, 76, 252, 132, 88, 16, 41, 86, 155, 14, 253, 210, 11]

/-- The one input of the test table "ForgeTx 1 to 1", with balance `balance`. -/
def oneInput (balance : Int) : List ForgeTxIn :=
  [⟨⟨prevTxId1, 0, balance, pkScript1⟩, some wifPrivKey1⟩]

/-- The one output of the test table "ForgeTx 1 to 1", requesting `output`. -/
def oneOutput (output : Int) : List ForgeTxOut := [⟨output, p2sh1⟩]

/-- The input `createTxIn` builds for `oneInput` when signing is not requested. -/
def unsignedTxIn : TxIn :=
  ⟨⟨prevHash1, 0⟩, [22] ++ placeholderWitnessProgram, [], MaxTxInSequenceNum⟩

/-- The transaction with `unsignedTxIn` and one output of value `value` to `p2sh1`. -/
def unsignedTx (value : Int) : MsgTx := ⟨TxVersion, [unsignedTxIn], [⟨value, pkScript1⟩], 0⟩

/-- The transaction with `unsignedTxIn` and outputs of the given values to `p2sh1`. -/
def unsignedTxTo (values : List Int) : MsgTx :=
  ⟨TxVersion, [unsignedTxIn], values.map (fun v => ⟨v, pkScript1⟩), 0⟩

/-- The parameters of the tests with signing requested. -/
def signingParams : Params := ⟨2, some TestNet3Params, true⟩

/-- The locking script `pkScript2` of the tests. -/
def pkScript2 : Bytes :=
  [0xa9, 0x14, 0x48, 0x1b, 0x77, 0x82, 0x29, 0xc2, 0x3b, 0x93, 0xe6, 0x85,
   0xe4, 0x99, 0xba, 0x55, 0xd0, 0xc0, 0xf1, 0xbc, 0x18, 0x3b, 0x87]

/-- The locking script `pkScript3` of the tests. -/
def pkScript3 : Bytes :=
  [0xa9, 0x14, 0x5e, 0x48, 0x54, 0x6e, 0xfa, 0xa8, 0xd0, 0xa4, 0x71, 0xeb,
   0xbe, 0x3a, 0x19, 0x01, 0x97, 0xe5, 0x8a, 0xed, 0xe8, 0x8a, 0x87]

/-- The locking script `pkScript4` of the tests. -/
def pkScript4 : Bytes :=
  [0xa9, 0x14, 0xbd, 0xac, 0xd5, 0xe1, 0x62, 0xc6, 0x64, 0x32, 0x54, 0xdd,
   0xfd, 0x4a, 0x76, 0x10, 0x14, 0x92, 0x56, 0xe8, 0x75, 0x36, 0x87]

/-- The locking script `pkScript5` of the tests. -/
def pkScript5 : Bytes :=
  [0xa9, 0x14, 0xe8, 0x06, 0xb7, 0x3f, 0xfa, 0x3f, 0x86, 0x19, 0x3e, 0x12,
   0x6c, 0x69, 0xef, 0x58, 0xc1, 0xec, 0x7c, 0xd3, 0x6a, 0x24, 0x87]

/-- The test helper `generateTxIn`, the decoded key standing for the WIF string. -/
def generateTxIn (txId : String) (vout : Nat) (value : Int) (pkScript : Bytes) (key : Nat) :
    ForgeTxIn :=
  ⟨⟨txId, vout, value, pkScript⟩, some ⟨[key]⟩⟩

/-- The five inputs of the test case "error, input isn't sufficient". -/
def insufficientInputs : List ForgeTxIn :=
  [generateTxIn prevTxId1 0 500 pkScript1 1,
   generateTxIn "0bd2fd0e9b5629105884fc4c42f76ae48a6a4fb649df6f678cc6bac28e39e2ad" 0 100 pkScript2 2,
   generateTxIn "0bd2fd0e9b5629105884fc4c42f75ae48a6a4fb649df6f678cc6bac28e39e2ad" 0 100 pkScript3 3,
   generateTxIn "0bd2fd0e9b5629105884fc4c42f74ae48a6a4fb649df6f678cc6bac28e39e2ad" 0 100 pkScript4 4,
   generateTxIn "0bd2fd0e9b5629105884fc4c42f73ae48a6a4fb649df6f678cc6bac28e39e2ad" 0 100 pkScript5 5]

/-- The compressed public key the library instance of the scenarios derives from
`wifPrivKey1`. -/
def stubPubKey1 : Bytes := [2, 1] ++ List.replicate 31 0

/-- The input of `oneInput` as `forgeTx` returns it from the library instance of the
scenarios when signing is requested. -/
def signedTxIn : TxIn :=
  ⟨⟨prevHash1, 0⟩, [22, 0x00, 0x14, 2, 1] ++ List.replicate 18 0,
    [List.replicate 72 0, stubPubKey1], MaxTxInSequenceNum⟩

/-- The transaction with `signedTxIn` and one output of value `value` to `p2sh1`. -/
def signedTx (value : Int) : MsgTx := ⟨TxVersion, [signedTxIn], [⟨value, pkScript1⟩], 0⟩

/-- The parameters of the tests with the largest fee rate an `int` holds. -/
def feeRateMaxParams : Params := ⟨MaxInt64, some TestNet3Params, false⟩

/-- One input worth 100 whose signing key is absent. -/
def keylessInput : List ForgeTxIn := [⟨⟨prevTxId1, 0, 100, pkScript1⟩, none⟩]

/-! ## Lemmas: the arithmetic of `int` -/

theorem wrapInt_of_isInt64 (x : Int) (h : IsInt64 x) : wrapInt x = x := by
  unfold IsInt64 at h
  unfold wrapInt
  omega

theorem isInt64_wrapInt (x : Int) : IsInt64 (wrapInt x) := by
  unfold IsInt64 wrapInt
  omega

theorem wrapInt_wrapInt (x : Int) : wrapInt (wrapInt x) = wrapInt x :=
  wrapInt_of_isInt64 _ (isInt64_wrapInt x)

theorem wrapInt_wrapInt_add (a b : Int) : wrapInt (wrapInt a + b) = wrapInt (a + b) := by
  unfold wrapInt
  omega

theorem wrapInt_zero : wrapInt 0 = 0 := by decide

/-! ## Lemmas: the loops of `forgeTx` -/

theorem inputsLoop_ok (lib : Btcd) (params : Params) :
    ∀ (txins : List ForgeTxIn) (sum : Int) (ins : List TxIn) (m : PrevOuts)
      (sum1 : Int) (ins1 : List TxIn) (m1 : PrevOuts),
      inputsLoop lib params txins (sum, ins, m) = .ok (sum1, ins1, m1) →
      (sum = wrapInt sum → sum1 = wrapInt (sum + sumInputs txins)) ∧
        ∃ new, ins1 = ins ++ new ∧ List.Forall₂ (EncodedBy lib params) txins new := by
  intro txins
  induction txins with
  | nil =>
    intro sum ins m sum1 ins1 m1 h
    simp only [inputsLoop, Except.ok.injEq, Prod.mk.injEq] at h
    obtain ⟨h1, h2, _⟩ := h
    exact ⟨fun hw => by simpa [sumInputs, ← h1] using hw, [], by simp [h2], List.Forall₂.nil⟩
  | cons t rest ih =>
    intro sum ins m sum1 ins1 m1 h
    simp only [inputsLoop] at h
    cases hc : createTxIn lib t m params with
    | error f => simp [hc] at h
    | ok r =>
      obtain ⟨tin, m2⟩ := r
      simp only [hc] at h
      obtain ⟨hs, new, hnew, hall⟩ := ih _ _ _ _ _ _ h
      refine ⟨?_, tin :: new, ?_, List.Forall₂.cons ⟨m, m2, hc⟩ hall⟩
      · intro _
        rw [hs (wrapInt_wrapInt _).symm, wrapInt_wrapInt_add]
        simp only [sumInputs, List.map_cons, List.sum_cons]
        congr 1
        omega
      · simp [hnew]

theorem outputsLoop_ok (lib : Btcd) (net : ChainParams) :
    ∀ (txouts : List ForgeTxOut) (sum : Int) (outs : List TxOut) (sum1 : Int) (outs1 : List TxOut),
      outputsLoop lib net txouts (sum, outs) = .ok (sum1, outs1) →
      (sum = wrapInt sum → sum1 = wrapInt (sum + sumOutputs txouts)) ∧
        ∃ new, outs1 = outs ++ new ∧ List.Forall₂ (ResolvedBy lib net) txouts new := by
  intro txouts
  induction txouts with
  | nil =>
    intro sum outs sum1 outs1 h
    simp only [outputsLoop, Except.ok.injEq, Prod.mk.injEq] at h
    obtain ⟨h1, h2⟩ := h
    exact ⟨fun hw => by simpa [sumOutputs, ← h1] using hw, [], by simp [h2], List.Forall₂.nil⟩
  | cons o rest ih =>
    intro sum outs sum1 outs1 h
    simp only [outputsLoop] at h
    cases hd : lib.DecodeAddress o.Address net with
    | error e => simp [hd] at h
    | ok a =>
      simp only [hd] at h
      cases hp : lib.PayToAddrScript a with
      | error e => simp [hp] at h
      | ok script =>
        simp only [hp] at h
        obtain ⟨hs, new, hnew, hall⟩ := ih _ _ _ _ h
        refine ⟨?_, ⟨o.Value, script⟩ :: new, ?_, List.Forall₂.cons ⟨rfl, a, hd, hp⟩ hall⟩
        · intro _
          rw [hs (wrapInt_wrapInt _).symm, wrapInt_wrapInt_add]
          simp only [sumOutputs, List.map_cons, List.sum_cons]
          congr 1
          omega
        · simp [hnew]

/-! ## The signing loop -/

theorem getElem?_clearWitnessesFrom :
    ∀ (l : List TxIn) (i j : Nat),
      (clearWitnessesFrom i l)[j]? =
        (l[j]?).map (fun t => if j < i then t else t.clearWitness) := by
  intro l
  induction l with
  | nil => intro i j; simp [clearWitnessesFrom]
  | cons t ts ih =>
    intro i j
    cases i with
    | zero =>
      cases j with
      | zero => simp [clearWitnessesFrom]
      | succ j => simp [clearWitnessesFrom, ih]
    | succ i =>
      cases j with
      | zero => simp [clearWitnessesFrom]
      | succ j => simp [clearWitnessesFrom, ih]

theorem clearWitnessesFrom_succ (l : List TxIn) (k : Nat) :
    clearWitnessesFrom k (clearWitnessesFrom (k + 1) l) = clearWitnessesFrom k l := by
  apply List.ext_getElem?
  intro j
  simp only [getElem?_clearWitnessesFrom]
  cases l[j]? with
  | none => rfl
  | some t =>
    by_cases h : j < k
    · have h1 : j < k + 1 := by omega
      simp [h, h1]
    · by_cases h1 : j < k + 1
      · simp [h, h1]
      · simp [h, h1, TxIn.clearWitness]

theorem clearWitnessesFrom_eq_self (l : List TxIn) (k : Nat)
    (hw : ∀ j t, k ≤ j → l[j]? = some t → t.Witness = []) :
    clearWitnessesFrom k l = l := by
  apply List.ext_getElem?
  intro j
  simp only [getElem?_clearWitnessesFrom]
  cases hj : l[j]? with
  | none => rfl
  | some t =>
    by_cases h : j < k
    · simp [h]
    · have := hw j t (by omega) hj
      cases t
      simp_all [TxIn.clearWitness]

theorem clearWitnessesFrom_modify (l : List TxIn) (k : Nat) (w : List Bytes)
    (hw : ∀ j t, k ≤ j → l[j]? = some t → t.Witness = []) :
    clearWitnessesFrom k
        (l.modify (fun txin => ⟨txin.PreviousOutPoint, txin.SignatureScript, w, txin.Sequence⟩) k)
      = l := by
  apply List.ext_getElem?
  intro j
  simp only [getElem?_clearWitnessesFrom, List.getElem?_modify]
  cases hj : l[j]? with
  | none => rfl
  | some t =>
    by_cases h : j < k
    · have h1 : k ≠ j := by omega
      simp [h, h1]
    · have := hw j t (by omega) hj
      cases t
      by_cases h1 : k = j
      · simp_all [TxIn.clearWitness]
      · simp_all [TxIn.clearWitness]

theorem signLoop_trace (lib : Btcd) (txins : List ForgeTxIn) (prev : PrevOuts) :
    ∀ (len k : Nat) (tx tx1 : MsgTx),
      signLoop lib txins prev (List.range' k len) tx = .ok tx1 →
      (∀ j t, k ≤ j → tx.TxIn[j]? = some t → t.Witness = []) →
      tx1.clearWitnessFrom k = tx ∧
        ∀ i, k ≤ i → i < k + len → SignedAndVerified lib txins prev tx1 i := by
  intro len
  induction len with
  | zero =>
    intro k tx tx1 h hw
    simp only [List.range'_zero, signLoop, Except.ok.injEq] at h
    subst h
    refine ⟨?_, fun i h1 h2 => by omega⟩
    cases tx
    simp only [MsgTx.clearWitnessFrom, MsgTx.mk.injEq, true_and, and_true]
    exact clearWitnessesFrom_eq_self _ _ hw
  | succ len ih =>
    intro k tx tx1 h hw
    rw [List.range'_succ] at h
    simp only [signLoop] at h
    cases htin : tx.TxIn[k]? with
    | none => simp [htin] at h
    | some txin =>
      cases hfin : txins[k]? with
      | none => simp [htin, hfin] at h
      | some forgeIn =>
        simp only [htin, hfin] at h
        cases hwif : forgeIn.WIFPrivKey with
        | none => simp [hwif] at h
        | some wif =>
          simp only [hwif] at h
          rw [List.drop_one] at h
          cases hsig : lib.WitnessSignature tx (lib.NewTxSigHashes tx prev) k forgeIn.Utxo.Value
              txin.SignatureScript.tail wif with
          | error e => simp [hsig] at h
          | ok w =>
            simp only [hsig] at h
            cases hvm : lib.NewEngine forgeIn.Utxo.PubKeyScript (tx.setWitness k w) k
                (lib.NewTxSigHashes tx prev) forgeIn.Utxo.Value prev with
            | error e => simp [hvm] at h
            | ok vm =>
              simp only [hvm] at h
              cases hex : lib.Execute vm with
              | error e => simp [hex] at h
              | ok u =>
                simp only [hex] at h
                have hw1 : ∀ j t, k + 1 ≤ j → (tx.setWitness k w).TxIn[j]? = some t →
                    t.Witness = [] := by
                  intro j t hj hjt
                  have hne : k ≠ j := by omega
                  simp only [MsgTx.setWitness, List.getElem?_modify, hne, if_false] at hjt
                  cases ha : tx.TxIn[j]? with
                  | none => simp [ha] at hjt
                  | some a =>
                    simp [ha] at hjt
                    subst hjt
                    exact hw j _ (by omega) ha
                obtain ⟨hclear, hrest⟩ := ih (k + 1) (tx.setWitness k w) tx1 h hw1
                have hk : tx1.clearWitnessFrom k = tx := by
                  have h2 : tx1.clearWitnessFrom k = (tx1.clearWitnessFrom (k + 1)).clearWitnessFrom k := by
                    simp only [MsgTx.clearWitnessFrom, clearWitnessesFrom_succ]
                  rw [h2, hclear]
                  cases tx
                  simp only [MsgTx.clearWitnessFrom, MsgTx.setWitness, MsgTx.mk.injEq, true_and,
                    and_true]
                  exact clearWitnessesFrom_modify _ _ _ hw
                refine ⟨hk, ?_⟩
                intro i hi1 hi2
                by_cases hik : i = k
                · subst hik
                  have hget : tx1.TxIn[i]? =
                      some ⟨txin.PreviousOutPoint, txin.SignatureScript, w, txin.Sequence⟩ := by
                    have h3 : (tx1.clearWitnessFrom (i + 1)).TxIn[i]? =
                        (tx.setWitness i w).TxIn[i]? := by rw [hclear]
                    simp only [MsgTx.clearWitnessFrom, getElem?_clearWitnessesFrom,
                      MsgTx.setWitness, List.getElem?_modify, htin] at h3
                    cases h4 : tx1.TxIn[i]? with
                    | none => simp [h4] at h3
                    | some t => simpa [h4] using h3
                  refine ⟨forgeIn, wif, _, hfin, hwif, hget, ?_, vm, ?_, ?_⟩
                  · rw [hk, List.drop_one]; exact hsig
                  · rw [hk, hclear]; exact hvm
                  · cases u; exact hex
                · exact hrest i (by omega) (by omega)

/-! ## What a successful `createTxIn` and a successful `forgeTx` returned -/

theorem createTxIn_ok (lib : Btcd) (fin : ForgeTxIn) (m m1 : PrevOuts) (params : Params)
    (tin : TxIn) (h : createTxIn lib fin m params = .ok (tin, m1)) :
    tin.Witness = [] ∧
      (params.NeedToSign = false → tin.SignatureScript = [22] ++ placeholderWitnessProgram) ∧
      (params.NeedToSign = true →
        ∃ wp, GetWitnessProgramFromPrivateKey lib fin.WIFPrivKey params.Network = .ok wp ∧
          tin.SignatureScript = [22] ++ wp) := by
  unfold createTxIn at h
  unfold GetWitnessProgramFromPrivateKey
  cases h0 : lib.NewHashFromStr fin.Utxo.TxID with
  | error e => simp [h0] at h
  | ok utxoHash =>
    simp only [h0] at h
    cases hs : params.NeedToSign with
    | false =>
      simp only [hs, Bool.false_eq_true, if_false, Except.ok.injEq, Prod.mk.injEq] at h
      obtain ⟨h1, _⟩ := h
      subst h1
      simp
    | true =>
      simp only [hs, if_true] at h
      cases hk : fin.WIFPrivKey with
      | none => simp [hk] at h
      | some wif =>
        simp only [hk] at h
        cases hn : params.Network with
        | none => simp [hn] at h
        | some net =>
          simp only [hn] at h
          cases h1 : lib.NewAddressPubKey (lib.SerializeCompressedPubKey wif) net with
          | error e => simp [h1] at h
          | ok addrPubKey =>
            simp only [h1] at h
            cases h2 : lib.NewAddressPubKeyHash (lib.Hash160 (lib.ScriptAddress addrPubKey)) net with
            | error e => simp [h2] at h
            | ok p2kh =>
              simp only [h2] at h
              cases h3 : lib.NewAddressWitnessPubKeyHash (lib.ScriptAddress p2kh) net with
              | error e => simp [h3] at h
              | ok p2wkhAddr =>
                simp only [h3] at h
                cases h4 : lib.PayToAddrScript p2wkhAddr with
                | error e => simp [h4] at h
                | ok witnessProgram =>
                  simp only [h4, Except.ok.injEq, Prod.mk.injEq] at h
                  obtain ⟨h5, _⟩ := h
                  subst h5
                  simp [h1, h2, h3, h4]

theorem encoded_witness_nil (lib : Btcd) (params : Params) :
    ∀ (txins : List ForgeTxIn) (ins : List TxIn),
      List.Forall₂ (EncodedBy lib params) txins ins →
      ∀ (j : Nat) (t : TxIn), ins[j]? = some t → t.Witness = [] := by
  intro txins ins hall
  induction hall with
  | nil => intro j t hj; simp at hj
  | @cons a b l1 l2 hhead _ ih =>
    intro j t hj
    cases j with
    | zero =>
      simp only [List.getElem?_cons_zero, Option.some.injEq] at hj
      subst hj
      obtain ⟨m0, m1, hc⟩ := hhead
      exact (createTxIn_ok lib a m0 m1 params b hc).1
    | succ j =>
      simp only [List.getElem?_cons_succ] at hj
      exact ih j t hj

/-- Everything a successful call of `forgeTx` went through. -/
theorem forgeTx_ok (lib : Btcd) (txins : List ForgeTxIn) (txouts : List ForgeTxOut)
    (params : Params) (tx : MsgTx) (s : ForgeSummary)
    (h : forgeTx lib txins txouts params = .ok (tx, s)) :
    txins ≠ [] ∧ txouts ≠ [] ∧ 1 ≤ params.FeeRate ∧
      ∃ net redeemTxIns prev redeemTxOuts,
        params.Network = some net ∧
        inputsLoop lib params txins (0, [], [])
          = .ok (wrapInt (sumInputs txins), redeemTxIns, prev) ∧
        List.Forall₂ (EncodedBy lib params) txins redeemTxIns ∧
        List.Forall₂ (ResolvedBy lib net) txouts redeemTxOuts ∧
        wrapInt (sumOutputs txouts) ≤ wrapInt (sumInputs txins) ∧
        s = ⟨wrapInt (wrapInt (sumInputs txins) - wrapInt (sumOutputs txouts)),
              wrapInt (sumInputs txins), wrapInt (sumOutputs txouts)⟩ ∧
        tx.clearWitnessFrom 0 = ⟨TxVersion, redeemTxIns, redeemTxOuts, 0⟩ ∧
        (params.NeedToSign = false → tx = ⟨TxVersion, redeemTxIns, redeemTxOuts, 0⟩) ∧
        (params.NeedToSign = true →
          ∀ i, i < txins.length → SignedAndVerified lib txins prev tx i) := by
  unfold forgeTx at h
  by_cases hlen : txins.length = 0 ∨ txouts.length = 0
  · rw [if_pos hlen] at h
    simp at h
  · rw [if_neg hlen] at h
    by_cases hfee : params.FeeRate < 1
    · rw [if_pos hfee] at h
      simp at h
    · rw [if_neg hfee] at h
      cases hn : params.Network with
      | none => simp [hn] at h
      | some net =>
        simp only [hn] at h
        cases hin : inputsLoop lib params txins (0, [], []) with
        | error f => simp [hin] at h
        | ok r =>
          obtain ⟨inputsSum, redeemTxIns, prev⟩ := r
          simp only [hin] at h
          cases hout : outputsLoop lib net txouts (0, []) with
          | error f => simp [hout] at h
          | ok r2 =>
            obtain ⟨outputsSum, redeemTxOuts⟩ := r2
            simp only [hout] at h
            obtain ⟨hs1, newIns, hnewIns, hallIns⟩ := inputsLoop_ok lib params _ _ _ _ _ _ _ hin
            obtain ⟨hs2, newOuts, hnewOuts, hallOuts⟩ := outputsLoop_ok lib net _ _ _ _ _ hout
            simp only [List.nil_append] at hnewIns hnewOuts
            have hs1 := hs1 wrapInt_zero.symm
            have hs2 := hs2 wrapInt_zero.symm
            simp only [zero_add] at hs1 hs2
            subst hnewIns hnewOuts hs1 hs2
            by_cases hover : wrapInt (sumOutputs txouts) > wrapInt (sumInputs txins)
            · rw [if_pos hover] at h
              simp at h
            · rw [if_neg hover] at h
              have hlenIns : redeemTxIns.length = txins.length := hallIns.length_eq.symm
              have hwnil := encoded_witness_nil lib params txins redeemTxIns hallIns
              refine ⟨?_, ?_, by omega, net, redeemTxIns, prev, redeemTxOuts, rfl, rfl, hallIns,
                hallOuts, by omega, ?_⟩
              · intro h0; simp [h0] at hlen
              · intro h0; simp [h0] at hlen
              · cases hs : params.NeedToSign with
                | false =>
                  simp only [hs, Bool.false_eq_true, if_false, Except.ok.injEq,
                    Prod.mk.injEq] at h
                  obtain ⟨h1, h2⟩ := h
                  subst h1 h2
                  refine ⟨rfl, ?_, fun _ => rfl, fun hc => by simp at hc⟩
                  simp only [MsgTx.clearWitnessFrom, MsgTx.mk.injEq, true_and, and_true]
                  exact clearWitnessesFrom_eq_self _ _ (fun j t _ hj => hwnil j t hj)
                | true =>
                  simp only [hs, if_true] at h
                  cases hsign : signLoop lib txins prev (List.range redeemTxIns.length)
                      ⟨TxVersion, redeemTxIns, redeemTxOuts, 0⟩ with
                  | error f => simp [hsign] at h
                  | ok tx1 =>
                    simp only [hsign, Except.ok.injEq, Prod.mk.injEq] at h
                    obtain ⟨h1, h2⟩ := h
                    subst h1 h2
                    rw [List.range_eq_range'] at hsign
                    obtain ⟨hclear, hsteps⟩ := signLoop_trace lib txins prev _ 0 _ _ hsign
                      (fun j t _ hj => hwnil j t hj)
                    refine ⟨rfl, hclear, fun hc => by simp at hc, fun _ i hi => ?_⟩
                    exact hsteps i (by omega) (by omega)

theorem resolved_values (lib : Btcd) (net : ChainParams) :
    ∀ (txouts : List ForgeTxOut) (outs : List TxOut),
      List.Forall₂ (ResolvedBy lib net) txouts outs →
      outs.map (fun o => o.Value) = txouts.map (fun o => o.Value) := by
  intro txouts outs hres
  induction hres with
  | nil => rfl
  | cons hhead _ ih => simp [hhead.1, ih]

theorem forgeTx_totalOut (lib : Btcd) (txins : List ForgeTxIn) (txouts : List ForgeTxOut)
    (params : Params) (tx : MsgTx) (s : ForgeSummary)
    (h : forgeTx lib txins txouts params = .ok (tx, s)) :
    tx.TxOut.map (fun o => o.Value) = txouts.map (fun o => o.Value) := by
  obtain ⟨_, _, _, net, ins, prev, outs, _, _, _, hres, _, _, hclear, _, _⟩ :=
    forgeTx_ok lib txins txouts params tx s h
  have hout : tx.TxOut = outs := by
    have := congrArg MsgTx.TxOut hclear
    simpa [MsgTx.clearWitnessFrom] using this
  rw [hout]
  exact resolved_values lib net txouts outs hres

/-- A successful `ForgeTx` is a successful provisional pass, a non-empty adjusted
output list, and a successful second pass on that list. -/
theorem ForgeTx_ok (lib : Btcd) (txins : List ForgeTxIn) (txouts : List ForgeTxOut)
    (params : Params) (tx : MsgTx) (s : ForgeSummary)
    (h : ForgeTx lib txins txouts params = .ok (tx, s)) :
    ∃ tx0 s0, forgeTx lib txins txouts params = .ok (tx0, s0) ∧
      txOutsWithFee (calculatedFee lib tx0 params) txouts ≠ [] ∧
      forgeTx lib txins (txOutsWithFee (calculatedFee lib tx0 params) txouts) params
        = .ok (tx, s) := by
  unfold ForgeTx at h
  cases h0 : forgeTx lib txins txouts params with
  | error f => simp [h0] at h
  | ok r =>
    obtain ⟨tx0, s0⟩ := r
    simp only [h0] at h
    by_cases hl : (txOutsWithFee (calculatedFee lib tx0 params) txouts).length = 0
    · rw [if_pos hl] at h
      simp at h
    · rw [if_neg hl] at h
      exact ⟨tx0, s0, rfl, fun hc => hl (by simp [hc]), h⟩

/-! ## The fee subtraction loop of `ForgeTx` -/

theorem foldl_feeStep_acc :
    ∀ (txouts : List ForgeTxOut) (fee : Int) (acc : List ForgeTxOut),
      txouts.foldl feeStep (fee, acc) =
        ((txouts.foldl feeStep (fee, [])).1, acc ++ (txouts.foldl feeStep (fee, [])).2) := by
  intro txouts
  induction txouts with
  | nil => intro fee acc; simp
  | cons o rest ih =>
    intro fee acc
    simp only [List.foldl_cons, feeStep]
    by_cases hneg : wrapInt (o.Value - fee) < 0
    · simp only [hneg, if_true]
      exact ih _ _
    · simp only [hneg, if_false, List.nil_append]
      rw [ih 0 (acc ++ _), ih 0 [_]]
      simp

theorem txOutsWithFee_nil (fee : Int) : txOutsWithFee fee [] = [] := rfl

theorem txOutsWithFee_cons_drop (fee : Int) (o : ForgeTxOut) (rest : List ForgeTxOut)
    (h : wrapInt (o.Value - fee) < 0) :
    txOutsWithFee fee (o :: rest) = txOutsWithFee (wrapInt (fee - o.Value)) rest := by
  simp [txOutsWithFee, feeStep, h]

theorem txOutsWithFee_cons_keep (fee : Int) (o : ForgeTxOut) (rest : List ForgeTxOut)
    (h : ¬ wrapInt (o.Value - fee) < 0) :
    txOutsWithFee fee (o :: rest)
      = ⟨wrapInt (o.Value - fee), o.Address⟩ :: txOutsWithFee 0 rest := by
  simp only [txOutsWithFee, List.foldl_cons, feeStep, h, if_false, List.nil_append]
  rw [foldl_feeStep_acc]
  simp

theorem txOutsWithFee_length_le :
    ∀ (txouts : List ForgeTxOut) (fee : Int), (txOutsWithFee fee txouts).length ≤ txouts.length := by
  intro txouts
  induction txouts with
  | nil => intro fee; simp [txOutsWithFee_nil]
  | cons o rest ih =>
    intro fee
    by_cases hneg : wrapInt (o.Value - fee) < 0
    · rw [txOutsWithFee_cons_drop fee o rest hneg]
      have := ih (wrapInt (fee - o.Value))
      simp only [List.length_cons]
      omega
    · rw [txOutsWithFee_cons_keep fee o rest hneg]
      have := ih 0
      simp only [List.length_cons]
      omega

/-- With nothing left to subtract, the loop keeps a list of `int` values as it is exactly
when no value in it is negative. -/
theorem txOutsWithFee_zero_eq_self_iff :
    ∀ (rest : List ForgeTxOut), (∀ r ∈ rest, IsInt64 r.Value) →
      (txOutsWithFee 0 rest = rest ↔ ∀ r ∈ rest, 0 ≤ r.Value) := by
  intro rest
  induction rest with
  | nil => intro _; simp [txOutsWithFee_nil]
  | cons o rest ih =>
    intro hint
    have ho : IsInt64 o.Value := hint o (List.mem_cons_self _ _)
    have hrest : ∀ r ∈ rest, IsInt64 r.Value := fun r hr => hint r (List.mem_cons_of_mem _ hr)
    have hw : wrapInt (o.Value - 0) = o.Value := by
      rw [sub_zero]
      exact wrapInt_of_isInt64 _ ho
    by_cases hneg : wrapInt (o.Value - 0) < 0
    · rw [txOutsWithFee_cons_drop 0 o rest hneg]
      constructor
      · intro heq
        have h1 := txOutsWithFee_length_le rest (wrapInt (0 - o.Value))
        rw [heq] at h1
        simp only [List.length_cons] at h1
        omega
      · intro hall
        have := hall o (List.mem_cons_self _ _)
        omega
    · rw [txOutsWithFee_cons_keep 0 o rest hneg, hw]
      have ho2 : (⟨o.Value, o.Address⟩ : ForgeTxOut) = o := by cases o; rfl
      rw [ho2]
      simp only [List.cons.injEq, true_and, List.mem_cons, forall_eq_or_imp]
      rw [ih hrest]
      constructor
      · intro hall; exact ⟨by omega, hall⟩
      · intro hall; exact hall.2

/-- The outputs the loop keeps have a value that is not negative, whatever the fee and
whatever the requested values. -/
theorem txOutsWithFee_nonneg :
    ∀ (txouts : List ForgeTxOut) (fee : Int), ∀ o ∈ txOutsWithFee fee txouts, 0 ≤ o.Value := by
  intro txouts
  induction txouts with
  | nil => intro fee o ho; simp [txOutsWithFee_nil] at ho
  | cons a rest ih =>
    intro fee o ho
    by_cases hneg : wrapInt (a.Value - fee) < 0
    · rw [txOutsWithFee_cons_drop fee a rest hneg] at ho
      exact ih _ o ho
    · rw [txOutsWithFee_cons_keep fee a rest hneg] at ho
      rcases List.mem_cons.mp ho with h | h
      · subst h; simp only; omega
      · exact ih _ o h

/-- The fee still to subtract is never negative when the loop starts from a fee that is
an `int` and not negative and no requested value is negative. -/
theorem foldl_feeStep_fee_nonneg :
    ∀ (txouts : List ForgeTxOut) (fee : Int) (acc : List ForgeTxOut),
      (∀ o ∈ txouts, 0 ≤ o.Value ∧ IsInt64 o.Value) → 0 ≤ fee → IsInt64 fee →
      0 ≤ (txouts.foldl feeStep (fee, acc)).1 := by
  intro txouts
  induction txouts with
  | nil => intro fee acc _ h _; simpa using h
  | cons o rest ih =>
    intro fee acc hall h hfee
    obtain ⟨ho, hoint⟩ := hall o (List.mem_cons_self _ _)
    have hrest : ∀ r ∈ rest, 0 ≤ r.Value ∧ IsInt64 r.Value :=
      fun r hr => hall r (List.mem_cons_of_mem _ hr)
    simp only [List.foldl_cons, feeStep]
    by_cases hneg : wrapInt (o.Value - fee) < 0
    · simp only [hneg, if_true]
      refine ih _ _ hrest ?_ (isInt64_wrapInt _)
      unfold IsInt64 at hoint hfee
      unfold wrapInt at hneg ⊢
      omega
    · simp only [hneg, if_false]
      exact ih _ _ hrest (le_refl 0) (by decide)

theorem sumOutputs_cons (o : ForgeTxOut) (rest : List ForgeTxOut) :
    sumOutputs (o :: rest) = o.Value + sumOutputs rest := by
  simp [sumOutputs]

theorem sumOutputs_nonneg (txouts : List ForgeTxOut) (h : ∀ o ∈ txouts, 0 ≤ o.Value) :
    0 ≤ sumOutputs txouts := by
  unfold sumOutputs
  apply List.sum_nonneg
  intro x hx
  obtain ⟨r, hr, hrx⟩ := List.mem_map.mp hx
  subst hrx
  exact h r hr

/-- With no negative value requested and a fee that is an `int` and not negative, the loop
drops every output exactly when the requested total is below the fee. -/
theorem txOutsWithFee_eq_nil_iff :
    ∀ (txouts : List ForgeTxOut) (fee : Int),
      (∀ o ∈ txouts, 0 ≤ o.Value ∧ IsInt64 o.Value) → 0 ≤ fee → IsInt64 fee →
      (txOutsWithFee fee txouts = [] ↔ txouts = [] ∨ sumOutputs txouts < fee) := by
  intro txouts
  induction txouts with
  | nil => intro fee _ _ _; simp [txOutsWithFee_nil]
  | cons o rest ih =>
    intro fee hall hfee0 hfee
    obtain ⟨ho, hoint⟩ := hall o (List.mem_cons_self _ _)
    have hrest : ∀ r ∈ rest, 0 ≤ r.Value ∧ IsInt64 r.Value :=
      fun r hr => hall r (List.mem_cons_of_mem _ hr)
    have hsum := sumOutputs_cons o rest
    have hsumrest : 0 ≤ sumOutputs rest := sumOutputs_nonneg rest (fun r hr => (hrest r hr).1)
    have hsub : wrapInt (o.Value - fee) = o.Value - fee := by
      unfold IsInt64 at hoint hfee
      unfold wrapInt
      omega
    by_cases hneg : wrapInt (o.Value - fee) < 0
    · have hfee1 : wrapInt (fee - o.Value) = fee - o.Value := by
        unfold IsInt64 at hoint hfee
        unfold wrapInt
        omega
      rw [txOutsWithFee_cons_drop fee o rest hneg, hfee1,
        ih (fee - o.Value) hrest (by omega) (by unfold IsInt64 at *; omega), hsum]
      constructor
      · rintro (h | h)
        · subst h
          right
          simp only [sumOutputs, List.map_nil, List.sum_nil]
          omega
        · right; omega
      · rintro (h | h)
        · simp at h
        · right; omega
    · rw [txOutsWithFee_cons_keep fee o rest hneg, hsum]
      constructor
      · intro h; simp at h
      · rintro (h | h)
        · simp at h
        · omega

/-- With no negative value requested and a fee that is an `int` and not negative, a
non-empty adjusted list totals the requested total less the fee. -/
theorem sumOutputs_txOutsWithFee :
    ∀ (txouts : List ForgeTxOut) (fee : Int),
      (∀ o ∈ txouts, 0 ≤ o.Value ∧ IsInt64 o.Value) → 0 ≤ fee → IsInt64 fee →
      txOutsWithFee fee txouts ≠ [] →
      sumOutputs (txOutsWithFee fee txouts) = sumOutputs txouts - fee := by
  intro txouts
  induction txouts with
  | nil => intro fee _ _ _ hne; simp [txOutsWithFee_nil] at hne
  | cons o rest ih =>
    intro fee hall hfee0 hfee hne
    obtain ⟨ho, hoint⟩ := hall o (List.mem_cons_self _ _)
    have hrest : ∀ r ∈ rest, 0 ≤ r.Value ∧ IsInt64 r.Value :=
      fun r hr => hall r (List.mem_cons_of_mem _ hr)
    have hsum := sumOutputs_cons o rest
    have hsub : wrapInt (o.Value - fee) = o.Value - fee := by
      unfold IsInt64 at hoint hfee
      unfold wrapInt
      omega
    by_cases hneg : wrapInt (o.Value - fee) < 0
    · have hfee1 : wrapInt (fee - o.Value) = fee - o.Value := by
        unfold IsInt64 at hoint hfee
        unfold wrapInt
        omega
      rw [txOutsWithFee_cons_drop fee o rest hneg, hfee1] at hne ⊢
      rw [ih (fee - o.Value) hrest (by omega) (by unfold IsInt64 at *; omega) hne, hsum]
      omega
    · rw [txOutsWithFee_cons_keep fee o rest hneg, hsub,
        (txOutsWithFee_zero_eq_self_iff rest (fun r hr => (hrest r hr).2)).mpr
          (fun r hr => (hrest r hr).1), sumOutputs_cons, hsum]
      simp only
      omega

/-! ## C1: the summary -/

/-- Claim C1. Whenever `forgeTx` or `ForgeTx` returns without error, and the amounts are
small enough not to overflow (the input total, the total of the returned outputs and
their difference are values of `int`), the returned summary satisfies
`0 ≤ Fee = TotalInput - TotalOutput`, where `TotalInput` is the sum of the values of the
input UTXOs and `TotalOutput` is the sum of the values of the outputs of the returned
transaction. -/
theorem summary_fee_balance (lib : Btcd) (txins : List ForgeTxIn) (txouts : List ForgeTxOut)
    (params : Params) (tx : MsgTx) (s : ForgeSummary)
    (h : forgeTx lib txins txouts params = .ok (tx, s) ∨
      ForgeTx lib txins txouts params = .ok (tx, s))
    (hin : IsInt64 (sumInputs txins)) (hout : IsInt64 tx.totalOut)
    (hdiff : IsInt64 (sumInputs txins - tx.totalOut)) :
    0 ≤ s.Fee ∧ s.Fee = s.TotalInput - s.TotalOutput ∧
      s.TotalInput = sumInputs txins ∧ s.TotalOutput = tx.totalOut := by
  have key : ∀ outs : List ForgeTxOut, forgeTx lib txins outs params = .ok (tx, s) →
      0 ≤ s.Fee ∧ s.Fee = s.TotalInput - s.TotalOutput ∧
        s.TotalInput = sumInputs txins ∧ s.TotalOutput = tx.totalOut := by
    intro outs ho
    have hval := forgeTx_totalOut lib txins outs params tx s ho
    obtain ⟨_, _, _, net, ins, prev, outs1, _, _, _, _, hle, hs, _, _, _⟩ :=
      forgeTx_ok lib txins outs params tx s ho
    have htot : tx.totalOut = sumOutputs outs := by
      simp only [MsgTx.totalOut, hval, sumOutputs]
    rw [htot] at hout hdiff ⊢
    rw [wrapInt_of_isInt64 _ hin, wrapInt_of_isInt64 _ hout] at hle hs
    rw [wrapInt_of_isInt64 _ hdiff] at hs
    subst hs
    exact ⟨by simp only; omega, rfl, rfl, rfl⟩
  rcases h with h | h
  · exact key txouts h
  · obtain ⟨tx0, s0, _, _, h2⟩ := ForgeTx_ok lib txins txouts params tx s h
    exact key _ h2

/-- Claim C1, witness: one input of 1000 and one output requesting 1000, not signed. -/
theorem summary_fee_balance_witness :
    (0 : Int) ≤ 208 ∧ (208 : Int) = 1000 - 792 ∧
      (1000 : Int) = sumInputs (oneInput 1000) ∧ (792 : Int) = (unsignedTx 792).totalOut :=
  summary_fee_balance testLib (oneInput 1000) (oneOutput 1000) testParams (unsignedTx 792)
    ⟨208, 1000, 792⟩ (Or.inr rfl) (by decide) (by decide) (by decide)

/-! ## C2: the first output pays the fee -/

/-- Claim C2, as stated, fails: with requested values 1000, -5 and 100 the provisional
pass succeeds, the fee is 336 and the first output covers it, yet the list handed to
the second assembly is `[664, 95]`: the output of value -5 is dropped and the output
after it is reduced by 5, so the remaining outputs are not left unchanged. -/
theorem first_output_pays_fee_counterexample :
    forgeTx testLib (oneInput 49664) [⟨1000, p2sh1⟩, ⟨-5, p2sh1⟩, ⟨100, p2sh1⟩] testParams
      = .ok (unsignedTxTo [1000, -5, 100], ⟨48569, 49664, 1095⟩) ∧
    calculatedFee testLib (unsignedTxTo [1000, -5, 100]) testParams = 336 ∧
    txOutsWithFee 336 [⟨1000, p2sh1⟩, ⟨-5, p2sh1⟩, ⟨100, p2sh1⟩]
      = [⟨664, p2sh1⟩, ⟨95, p2sh1⟩] ∧
    txOutsWithFee 336 [⟨1000, p2sh1⟩, ⟨-5, p2sh1⟩, ⟨100, p2sh1⟩]
      ≠ [⟨1000 - 336, p2sh1⟩, ⟨-5, p2sh1⟩, ⟨100, p2sh1⟩] ∧
    ForgeTx testLib (oneInput 49664) [⟨1000, p2sh1⟩, ⟨-5, p2sh1⟩, ⟨100, p2sh1⟩] testParams
      = .ok (unsignedTxTo [664, 95], ⟨48905, 49664, 759⟩) :=
  ⟨rfl, rfl, rfl, by decide, rfl⟩

/-- Claim C2, amended. With `fee = ((3 * strippedSize + sizeWithWitness) / 4) * FeeRate`
taken on the provisional transaction: when the provisional pass succeeds, the first
requested output has value `≥ fee` and no remaining requested output has a negative
value (the requested values being values of `int`), the fee the code computes is
`fee`, and the list handed to the second assembly is the first output with value
`value - fee` and the same address, followed by the remaining requested outputs
unchanged. -/
theorem first_output_pays_fee (lib : Btcd) (txins : List ForgeTxIn) (o : ForgeTxOut)
    (rest : List ForgeTxOut) (params : Params) (tx0 : MsgTx) (s0 : ForgeSummary)
    (hprov : forgeTx lib txins (o :: rest) params = .ok (tx0, s0))
    (hfee : (((lib.SerializeSizeStripped tx0 * 3 + lib.SerializeSize tx0) / 4 : Nat) : Int)
      * params.FeeRate ≤ o.Value)
    (hrest : ∀ r ∈ rest, 0 ≤ r.Value)
    (hint : ∀ t ∈ o :: rest, IsInt64 t.Value) :
    calculatedFee lib tx0 params =
        (((lib.SerializeSizeStripped tx0 * 3 + lib.SerializeSize tx0) / 4 : Nat) : Int)
          * params.FeeRate ∧
      txOutsWithFee (calculatedFee lib tx0 params) (o :: rest)
        = ⟨o.Value - calculatedFee lib tx0 params, o.Address⟩ :: rest ∧
      ForgeTx lib txins (o :: rest) params
        = forgeTx lib txins (⟨o.Value - calculatedFee lib tx0 params, o.Address⟩ :: rest)
            params := by
  obtain ⟨_, _, hrate, _⟩ := forgeTx_ok lib txins _ params tx0 s0 hprov
  have ho : IsInt64 o.Value := hint o (List.mem_cons_self _ _)
  have hrint : ∀ r ∈ rest, IsInt64 r.Value := fun r hr => hint r (List.mem_cons_of_mem _ hr)
  have hnn : 0 ≤ ((vSize lib tx0 : Nat) : Int) * params.FeeRate :=
    Int.mul_nonneg (Int.ofNat_nonneg _) (by omega)
  have hfee1 : ((vSize lib tx0 : Nat) : Int) * params.FeeRate ≤ o.Value := hfee
  have hcalc : calculatedFee lib tx0 params = ((vSize lib tx0 : Nat) : Int) * params.FeeRate := by
    unfold calculatedFee
    apply wrapInt_of_isInt64
    unfold IsInt64 at ho ⊢
    omega
  have hkeep : wrapInt (o.Value - calculatedFee lib tx0 params)
      = o.Value - calculatedFee lib tx0 params := by
    apply wrapInt_of_isInt64
    rw [hcalc]
    unfold IsInt64 at ho ⊢
    omega
  have hlist : txOutsWithFee (calculatedFee lib tx0 params) (o :: rest)
      = ⟨o.Value - calculatedFee lib tx0 params, o.Address⟩ :: rest := by
    rw [txOutsWithFee_cons_keep _ o rest (by rw [hkeep, hcalc]; omega), hkeep,
      (txOutsWithFee_zero_eq_self_iff rest hrint).mpr hrest]
  refine ⟨hcalc, hlist, ?_⟩
  unfold ForgeTx
  rw [hprov]
  simp only [hlist, List.length_cons]
  rw [if_neg (by omega)]

/-- Claim C2 amended, witness: requested values 1000 and 100, fee 272. -/
theorem first_output_pays_fee_witness :
    calculatedFee testLib (unsignedTxTo [1000, 100]) testParams =
        (((testLib.SerializeSizeStripped (unsignedTxTo [1000, 100]) * 3
          + testLib.SerializeSize (unsignedTxTo [1000, 100])) / 4 : Nat) : Int)
          * testParams.FeeRate ∧
      txOutsWithFee (calculatedFee testLib (unsignedTxTo [1000, 100]) testParams)
          [⟨1000, p2sh1⟩, ⟨100, p2sh1⟩]
        = [⟨1000 - calculatedFee testLib (unsignedTxTo [1000, 100]) testParams, p2sh1⟩,
            ⟨100, p2sh1⟩] ∧
      ForgeTx testLib (oneInput 49664) [⟨1000, p2sh1⟩, ⟨100, p2sh1⟩] testParams
        = forgeTx testLib (oneInput 49664)
            [⟨1000 - calculatedFee testLib (unsignedTxTo [1000, 100]) testParams, p2sh1⟩,
              ⟨100, p2sh1⟩] testParams :=
  first_output_pays_fee testLib (oneInput 49664) ⟨1000, p2sh1⟩ [⟨100, p2sh1⟩] testParams
    (unsignedTxTo [1000, 100]) ⟨48564, 49664, 1100⟩ rfl (by decide) (by decide) (by decide)

/-! ## C3: Scenario A -/

/-- Claim C3, the code at Scenario A. With `NeedToSign` left unset, for every library in
which the transaction id parses, the address `p2sh1` resolves on testnet to a locking
script of 23 bytes and the sizes are those of the wire encoding, `ForgeTx` on one input
worth 49664 and one output requesting 49664 at fee rate 2 returns a transaction whose
input has the 21-byte placeholder script and no witness, whose one output has value
49456, and a summary with `Fee = 208`: not the fee 266 and the value 49398 the test
expects. -/
theorem scenarioA_NeedToSign_unset (lib : Btcd) (h : Bytes) (a : Address) (pk : Bytes)
    (hh : lib.NewHashFromStr prevTxId1 = .ok h)
    (ha : lib.DecodeAddress p2sh1 TestNet3Params = .ok a)
    (hp : lib.PayToAddrScript a = .ok pk) (hlen : pk.length = 23)
    (hs : lib.SerializeSize = MsgTx.wireSize)
    (hb : lib.SerializeSizeStripped = MsgTx.baseSize) :
    ForgeTx lib (oneInput 49664) (oneOutput 49664) testParams =
      .ok (⟨TxVersion, [⟨⟨h, 0⟩, [22] ++ placeholderWitnessProgram, [], MaxTxInSequenceNum⟩],
            [⟨49456, pk⟩], 0⟩, ⟨208, 49664, 49456⟩) := by
  have hfee : ∀ v : Int, calculatedFee lib
      ⟨TxVersion, [⟨⟨h, 0⟩, [22] ++ placeholderWitnessProgram, [], MaxTxInSequenceNum⟩],
            [⟨v, pk⟩], 0⟩ testParams = 208 := by
    intro v
    simp [calculatedFee, vSize, wrapInt, hs, hb, MsgTx.wireSize, MsgTx.baseSize,
      MsgTx.HasWitness, TxIn.SerializeSize, TxOut.SerializeSize, VarIntSerializeSize, hlen,
      placeholderWitnessProgram, testParams]
  have h1 : forgeTx lib (oneInput 49664) (oneOutput 49664) testParams =
      .ok (⟨TxVersion, [⟨⟨h, 0⟩, [22] ++ placeholderWitnessProgram, [], MaxTxInSequenceNum⟩],
            [⟨49664, pk⟩], 0⟩, ⟨0, 49664, 49664⟩) := by
    simp [forgeTx, oneInput, oneOutput, testParams, inputsLoop, createTxIn, outputsLoop,
      wrapInt, hh, ha, hp]
  have h2 : forgeTx lib (oneInput 49664) [⟨49456, p2sh1⟩] testParams =
      .ok (⟨TxVersion, [⟨⟨h, 0⟩, [22] ++ placeholderWitnessProgram, [], MaxTxInSequenceNum⟩],
            [⟨49456, pk⟩], 0⟩, ⟨208, 49664, 49456⟩) := by
    simp [forgeTx, oneInput, testParams, inputsLoop, createTxIn, outputsLoop, wrapInt,
      hh, ha, hp]
  unfold ForgeTx
  rw [h1]
  simp only [hfee]
  simp [oneOutput, txOutsWithFee, feeStep, wrapInt, h2]

/-- Claim C3, witness: the library instance of the scenarios. -/
theorem scenarioA_NeedToSign_unset_witness :
    ForgeTx testLib (oneInput 49664) (oneOutput 49664) testParams =
      .ok (unsignedTx 49456, ⟨208, 49664, 49456⟩) :=
  scenarioA_NeedToSign_unset testLib prevHash1 (.scriptHash p2sh1Hash) pkScript1 rfl rfl rfl rfl
    rfl rfl

/-- Scenario A with signing requested: with a 72-byte signature and a 33-byte public key
in the witness of the one input, the fee is 266 and the output value 49398, the figures
of the test. -/
theorem scenarioA_NeedToSign_set :
    ∃ tx, ForgeTx testLib (oneInput 49664) (oneOutput 49664) signingParams
        = .ok (tx, ⟨266, 49664, 49398⟩) ∧
      tx.TxIn.length = 1 ∧ tx.TxOut = [⟨49398, pkScript1⟩] :=
  ⟨_, rfl, rfl, rfl⟩

/-! ## The failures of `forgeTx` -/

theorem createTxIn_error (lib : Btcd) (fin : ForgeTxIn) (m : PrevOuts) (params : Params)
    (f : Failure) (h : createTxIn lib fin m params = .error f) :
    (∃ e, f = .err (.txId fin.Utxo.TxID e)) ∨ (∃ e, f = .err (.lib e)) ∨
      (f = .panic ∧ params.NeedToSign = true ∧
        (fin.WIFPrivKey = none ∨ params.Network = none)) := by
  unfold createTxIn at h
  cases h0 : lib.NewHashFromStr fin.Utxo.TxID with
  | error e =>
    simp only [h0, Except.error.injEq] at h
    exact Or.inl ⟨e, h.symm⟩
  | ok utxoHash =>
    simp only [h0] at h
    cases hs : params.NeedToSign with
    | false => simp [hs] at h
    | true =>
      simp only [hs, if_true] at h
      cases hk : fin.WIFPrivKey with
      | none =>
        simp only [hk, Except.error.injEq] at h
        exact Or.inr (Or.inr ⟨h.symm, rfl, Or.inl rfl⟩)
      | some wif =>
        simp only [hk] at h
        cases hn : params.Network with
        | none =>
          simp only [hn, Except.error.injEq] at h
          exact Or.inr (Or.inr ⟨h.symm, rfl, Or.inr rfl⟩)
        | some net =>
          simp only [hn] at h
          cases h1 : lib.NewAddressPubKey (lib.SerializeCompressedPubKey wif) net with
          | error e =>
            simp only [h1, Except.error.injEq] at h
            exact Or.inr (Or.inl ⟨e, h.symm⟩)
          | ok addrPubKey =>
            simp only [h1] at h
            cases h2 : lib.NewAddressPubKeyHash (lib.Hash160 (lib.ScriptAddress addrPubKey)) net with
            | error e =>
              simp only [h2, Except.error.injEq] at h
              exact Or.inr (Or.inl ⟨e, h.symm⟩)
            | ok p2kh =>
              simp only [h2] at h
              cases h3 : lib.NewAddressWitnessPubKeyHash (lib.ScriptAddress p2kh) net with
              | error e =>
                simp only [h3, Except.error.injEq] at h
                exact Or.inr (Or.inl ⟨e, h.symm⟩)
              | ok p2wkhAddr =>
                simp only [h3] at h
                cases h4 : lib.PayToAddrScript p2wkhAddr with
                | error e =>
                  simp only [h4, Except.error.injEq] at h
                  exact Or.inr (Or.inl ⟨e, h.symm⟩)
                | ok witnessProgram => simp [h4] at h

theorem inputsLoop_error (lib : Btcd) (params : Params) :
    ∀ (txins : List ForgeTxIn) (st : Int × List TxIn × PrevOuts) (f : Failure),
      inputsLoop lib params txins st = .error f →
      (∃ txid e, f = .err (.txId txid e)) ∨ (∃ e, f = .err (.lib e)) ∨
        (f = .panic ∧ params.NeedToSign = true ∧
          ((∃ t ∈ txins, t.WIFPrivKey = none) ∨ params.Network = none)) := by
  intro txins
  induction txins with
  | nil => intro st f h; simp [inputsLoop] at h
  | cons t rest ih =>
    intro st f h
    obtain ⟨sum, ins, m⟩ := st
    simp only [inputsLoop] at h
    cases hc : createTxIn lib t m params with
    | error g =>
      simp only [hc, Except.error.injEq] at h
      subst h
      rcases createTxIn_error lib t m params g hc with ⟨e, he⟩ | ⟨e, he⟩ | ⟨hp, hs, hk | hn⟩
      · exact Or.inl ⟨_, e, he⟩
      · exact Or.inr (Or.inl ⟨e, he⟩)
      · exact Or.inr (Or.inr ⟨hp, hs, Or.inl ⟨t, List.mem_cons_self _ _, hk⟩⟩)
      · exact Or.inr (Or.inr ⟨hp, hs, Or.inr hn⟩)
    | ok r =>
      obtain ⟨tin, m2⟩ := r
      simp only [hc] at h
      rcases ih _ f h with h1 | h1 | ⟨hp, hs, ⟨u, hu, hk⟩ | hn⟩
      · exact Or.inl h1
      · exact Or.inr (Or.inl h1)
      · exact Or.inr (Or.inr ⟨hp, hs, Or.inl ⟨u, List.mem_cons_of_mem _ hu, hk⟩⟩)
      · exact Or.inr (Or.inr ⟨hp, hs, Or.inr hn⟩)

theorem outputsLoop_error (lib : Btcd) (net : ChainParams) :
    ∀ (txouts : List ForgeTxOut) (st : Int × List TxOut) (f : Failure),
      outputsLoop lib net txouts st = .error f → ∃ e, f = .err (.lib e) := by
  intro txouts
  induction txouts with
  | nil => intro st f h; simp [outputsLoop] at h
  | cons o rest ih =>
    intro st f h
    obtain ⟨sum, outs⟩ := st
    simp only [outputsLoop] at h
    cases hd : lib.DecodeAddress o.Address net with
    | error e =>
      simp only [hd, Except.error.injEq] at h
      exact ⟨e, h.symm⟩
    | ok a =>
      simp only [hd] at h
      cases hp : lib.PayToAddrScript a with
      | error e =>
        simp only [hp, Except.error.injEq] at h
        exact ⟨e, h.symm⟩
      | ok script =>
        simp only [hp] at h
        exact ih _ f h

theorem signLoop_error (lib : Btcd) (txins : List ForgeTxIn) (prev : PrevOuts) :
    ∀ (idxs : List Nat) (tx : MsgTx) (f : Failure),
      signLoop lib txins prev idxs tx = .error f → (∃ e, f = .err (.lib e)) ∨ f = .panic := by
  intro idxs
  induction idxs with
  | nil => intro tx f h; simp [signLoop] at h
  | cons i rest ih =>
    intro tx f h
    unfold signLoop at h
    split at h
    · split at h
      · exact Or.inr (by simpa using h.symm)
      · dsimp only at h
        split at h
        · exact Or.inl ⟨_, by simpa using h.symm⟩
        · split at h
          · exact Or.inl ⟨_, by simpa using h.symm⟩
          · split at h
            · exact Or.inl ⟨_, by simpa using h.symm⟩
            · exact ih _ f h
    · exact Or.inr (by simpa using h.symm)

/-- The error "fee is greater than all txouts" is not one `forgeTx` returns. -/
theorem forgeTx_ne_feeGreater (lib : Btcd) (txins : List ForgeTxIn) (txouts : List ForgeTxOut)
    (params : Params) :
    forgeTx lib txins txouts params ≠ .error (.err .feeGreaterThanAllTxouts) := by
  intro h
  unfold forgeTx at h
  split at h
  · simp at h
  · split at h
    · simp at h
    · split at h
      · simp at h
      · split at h
        · rename_i f hin
          simp only [Except.error.injEq] at h
          subst h
          rcases inputsLoop_error lib params _ _ _ hin with ⟨_, _, he⟩ | ⟨_, he⟩ | ⟨he, _⟩ <;>
            simp at he
        · split at h
          · rename_i f hout
            simp only [Except.error.injEq] at h
            subst h
            obtain ⟨_, he⟩ := outputsLoop_error lib _ _ _ _ hout
            simp at he
          · split at h
            · simp at h
            · split at h
              · dsimp only at h
                split at h
                · rename_i f hsign
                  simp only [Except.error.injEq] at h
                  subst h
                  rcases signLoop_error lib _ _ _ _ _ hsign with ⟨_, he⟩ | he <;> simp at he
                · simp at h
              · simp at h

/-! ## C4: the fee exceeds every output -/

/-- The fee the code computes is the product `vSize * FeeRate` when that product fits in
an `int` and the fee rate passed the check of `forgeTx`. -/
theorem calculatedFee_eq (lib : Btcd) (tx0 : MsgTx) (params : Params)
    (hrate : 1 ≤ params.FeeRate)
    (hfit : ((vSize lib tx0 : Nat) : Int) * params.FeeRate ≤ MaxInt64) :
    calculatedFee lib tx0 params = ((vSize lib tx0 : Nat) : Int) * params.FeeRate ∧
      0 ≤ calculatedFee lib tx0 params ∧ IsInt64 (calculatedFee lib tx0 params) := by
  have hnn : 0 ≤ ((vSize lib tx0 : Nat) : Int) * params.FeeRate :=
    Int.mul_nonneg (Int.ofNat_nonneg _) (by omega)
  have hint : IsInt64 (((vSize lib tx0 : Nat) : Int) * params.FeeRate) := by
    unfold MaxInt64 at hfit
    unfold IsInt64
    omega
  have hcalc : calculatedFee lib tx0 params = ((vSize lib tx0 : Nat) : Int) * params.FeeRate :=
    wrapInt_of_isInt64 _ hint
  rw [hcalc]
  exact ⟨rfl, hnn, hint⟩

/-- Claim C4, as stated, fails when the product `vsize * FeeRate` overflows.  At fee rate
`MaxInt64` the provisional transaction has vsize 104 and the code computes the fee -104:
one output requesting 1000, far below the product, is not rejected but paid 1104; and
one output requesting `MaxInt64`, not below the fee -104 the code computed, is
rejected. -/
theorem fee_exceeds_outputs_counterexample :
    (forgeTx testLib (oneInput 49664) (oneOutput 1000) feeRateMaxParams
        = .ok (unsignedTx 1000, ⟨48664, 49664, 1000⟩) ∧
      (∀ o ∈ oneOutput 1000, 0 ≤ o.Value) ∧
      sumOutputs (oneOutput 1000)
        < ((vSize testLib (unsignedTx 1000) : Nat) : Int) * feeRateMaxParams.FeeRate ∧
      calculatedFee testLib (unsignedTx 1000) feeRateMaxParams = -104 ∧
      ForgeTx testLib (oneInput 49664) (oneOutput 1000) feeRateMaxParams
        = .ok (unsignedTx 1104, ⟨48560, 49664, 1104⟩)) ∧
    (forgeTx testLib (oneInput MaxInt64) (oneOutput MaxInt64) feeRateMaxParams
        = .ok (unsignedTx MaxInt64, ⟨0, MaxInt64, MaxInt64⟩) ∧
      (∀ o ∈ oneOutput MaxInt64, 0 ≤ o.Value) ∧
      ¬ sumOutputs (oneOutput MaxInt64)
        < calculatedFee testLib (unsignedTx MaxInt64) feeRateMaxParams ∧
      ForgeTx testLib (oneInput MaxInt64) (oneOutput MaxInt64) feeRateMaxParams
        = .error (.err .feeGreaterThanAllTxouts)) :=
  ⟨⟨rfl, by decide, by decide, rfl, rfl⟩, ⟨rfl, by decide, by decide, rfl⟩⟩

/-- Claim C4, amended. When the provisional pass succeeds, no requested value is negative
(the requested values being values of `int`) and the fee `vsize * FeeRate` of the
provisional transaction does not overflow an `int`, the code computes that fee, and
`ForgeTx` returns the error "fee is greater than all txouts" exactly when the sum of the
requested values is strictly below it; so a request totalling exactly the fee is not
rejected by this check. -/
theorem fee_exceeds_outputs_iff (lib : Btcd) (txins : List ForgeTxIn)
    (txouts : List ForgeTxOut) (params : Params) (tx0 : MsgTx) (s0 : ForgeSummary)
    (hprov : forgeTx lib txins txouts params = .ok (tx0, s0))
    (hnonneg : ∀ o ∈ txouts, 0 ≤ o.Value)
    (hint : ∀ o ∈ txouts, IsInt64 o.Value)
    (hfit : (((lib.SerializeSizeStripped tx0 * 3 + lib.SerializeSize tx0) / 4 : Nat) : Int)
      * params.FeeRate ≤ MaxInt64) :
    calculatedFee lib tx0 params =
        (((lib.SerializeSizeStripped tx0 * 3 + lib.SerializeSize tx0) / 4 : Nat) : Int)
          * params.FeeRate ∧
      (ForgeTx lib txins txouts params = .error (.err .feeGreaterThanAllTxouts) ↔
        sumOutputs txouts < calculatedFee lib tx0 params) := by
  obtain ⟨_, hne, hrate, _⟩ := forgeTx_ok lib txins txouts params tx0 s0 hprov
  obtain ⟨hcalc, hfee0, hfeeint⟩ := calculatedFee_eq lib tx0 params hrate hfit
  refine ⟨hcalc, ?_⟩
  have hnil := txOutsWithFee_eq_nil_iff txouts (calculatedFee lib tx0 params)
    (fun o ho => ⟨hnonneg o ho, hint o ho⟩) hfee0 hfeeint
  unfold ForgeTx
  rw [hprov]
  simp only
  by_cases hl : (txOutsWithFee (calculatedFee lib tx0 params) txouts).length = 0
  · rw [if_pos hl]
    have h0 : txOutsWithFee (calculatedFee lib tx0 params) txouts = [] :=
      List.length_eq_zero.mp hl
    rcases hnil.mp h0 with h | h
    · exact absurd h hne
    · exact ⟨fun _ => h, fun _ => rfl⟩
  · rw [if_neg hl]
    constructor
    · intro h
      exact absurd h (forgeTx_ne_feeGreater lib txins _ params)
    · intro h
      exact absurd (List.length_eq_zero.mpr (hnil.mpr (Or.inr h))) hl

/-- Claim C4 amended, witness: Scenario C, one input worth 200 and one output requesting
200 at fee rate 2, is rejected. -/
theorem fee_exceeds_outputs_iff_witness :
    (calculatedFee testLib (unsignedTx 200) testParams =
        (((testLib.SerializeSizeStripped (unsignedTx 200) * 3
          + testLib.SerializeSize (unsignedTx 200)) / 4 : Nat) : Int) * testParams.FeeRate ∧
      (ForgeTx testLib (oneInput 200) (oneOutput 200) testParams
          = .error (.err .feeGreaterThanAllTxouts) ↔
        sumOutputs (oneOutput 200) < calculatedFee testLib (unsignedTx 200) testParams)) ∧
    ForgeTx testLib (oneInput 200) (oneOutput 200) testParams
      = .error (.err .feeGreaterThanAllTxouts) :=
  ⟨fee_exceeds_outputs_iff testLib (oneInput 200) (oneOutput 200) testParams (unsignedTx 200)
    ⟨0, 200, 200⟩ rfl (by decide) (by decide) (by decide), rfl⟩

/-! ## C5: dropping an output and carrying the shortfall -/

/-- Claim C5. With `fee = vsize * FeeRate` of the provisional transaction: when the
provisional pass on `o1 :: o2 :: rest` succeeds, `o1.Value < fee` and
`o2.Value ≥ fee - o1.Value` (`o2.Value` being a value of `int`), the list handed to
the second assembly starts with an output to the address of `o2` of value
`o2.Value - (fee - o1.Value)`, followed by what the loop makes of `rest` with nothing
left to subtract: `o1` contributes no output.  With exactly two requested outputs, a
transaction that `ForgeTx` returns has exactly one output, of that value, with the
locking script of the address of `o2`. -/
theorem drop_first_output_carry (lib : Btcd) (txins : List ForgeTxIn) (o1 o2 : ForgeTxOut)
    (rest : List ForgeTxOut) (params : Params) (tx0 : MsgTx) (s0 : ForgeSummary)
    (hprov : forgeTx lib txins (o1 :: o2 :: rest) params = .ok (tx0, s0))
    (h1 : o1.Value < ((vSize lib tx0 : Nat) : Int) * params.FeeRate)
    (h2 : o2.Value ≥ ((vSize lib tx0 : Nat) : Int) * params.FeeRate - o1.Value)
    (hint2 : IsInt64 o2.Value) :
    txOutsWithFee (calculatedFee lib tx0 params) (o1 :: o2 :: rest)
        = ⟨o2.Value - (((vSize lib tx0 : Nat) : Int) * params.FeeRate - o1.Value), o2.Address⟩
            :: txOutsWithFee 0 rest ∧
      ForgeTx lib txins (o1 :: o2 :: rest) params
        = forgeTx lib txins
            (⟨o2.Value - (((vSize lib tx0 : Nat) : Int) * params.FeeRate - o1.Value),
                o2.Address⟩
              :: txOutsWithFee 0 rest) params ∧
      (rest = [] → ∀ tx s, ForgeTx lib txins (o1 :: o2 :: rest) params = .ok (tx, s) →
        ∃ net a pk, params.Network = some net ∧ lib.DecodeAddress o2.Address net = .ok a ∧
          lib.PayToAddrScript a = .ok pk ∧
          tx.TxOut
            = [⟨o2.Value - (((vSize lib tx0 : Nat) : Int) * params.FeeRate - o1.Value), pk⟩]) := by
  have hdrop : wrapInt (o1.Value - calculatedFee lib tx0 params) < 0 := by
    unfold calculatedFee
    generalize ((vSize lib tx0 : Nat) : Int) * params.FeeRate = fee at h1 h2
    unfold IsInt64 at hint2
    unfold wrapInt
    omega
  have hkeep : wrapInt (o2.Value - wrapInt (calculatedFee lib tx0 params - o1.Value))
      = o2.Value - (((vSize lib tx0 : Nat) : Int) * params.FeeRate - o1.Value) := by
    unfold calculatedFee
    generalize ((vSize lib tx0 : Nat) : Int) * params.FeeRate = fee at h1 h2
    unfold IsInt64 at hint2
    unfold wrapInt
    omega
  have hlist : txOutsWithFee (calculatedFee lib tx0 params) (o1 :: o2 :: rest)
      = ⟨o2.Value - (((vSize lib tx0 : Nat) : Int) * params.FeeRate - o1.Value), o2.Address⟩
          :: txOutsWithFee 0 rest := by
    rw [txOutsWithFee_cons_drop _ o1 _ hdrop,
      txOutsWithFee_cons_keep _ o2 _ (by rw [hkeep]; omega), hkeep]
  have hforge : ForgeTx lib txins (o1 :: o2 :: rest) params
      = forgeTx lib txins
          (⟨o2.Value - (((vSize lib tx0 : Nat) : Int) * params.FeeRate - o1.Value), o2.Address⟩
            :: txOutsWithFee 0 rest) params := by
    unfold ForgeTx
    rw [hprov]
    simp only [hlist, List.length_cons]
    rw [if_neg (by omega)]
  refine ⟨hlist, hforge, ?_⟩
  intro hrest tx s hok
  subst hrest
  rw [hforge, txOutsWithFee_nil] at hok
  obtain ⟨_, _, _, net, ins, prev, outs, hnet, _, _, hres, _, _, hclear, _, _⟩ :=
    forgeTx_ok lib txins _ params tx s hok
  have hout : tx.TxOut = outs := by
    have := congrArg MsgTx.TxOut hclear
    simpa [MsgTx.clearWitnessFrom] using this
  cases hres with
  | @cons _ t _ _ hhead htail =>
    cases htail
    obtain ⟨hv, a, ha, hp⟩ := hhead
    refine ⟨net, a, t.PkScript, hnet, ha, hp, ?_⟩
    rw [hout]
    cases t
    simp_all

/-- Claim C5, witness: requested values 100 and 1000 at fee 272 leave one output of 828. -/
theorem drop_first_output_carry_witness :
    txOutsWithFee (calculatedFee testLib (unsignedTxTo [100, 1000]) testParams)
        [⟨100, p2sh1⟩, ⟨1000, p2sh1⟩]
      = [⟨828, p2sh1⟩] ∧
    ForgeTx testLib (oneInput 49664) [⟨100, p2sh1⟩, ⟨1000, p2sh1⟩] testParams
      = .ok (unsignedTxTo [828], ⟨48836, 49664, 828⟩) :=
  ⟨(drop_first_output_carry testLib (oneInput 49664) ⟨100, p2sh1⟩ ⟨1000, p2sh1⟩ [] testParams
      (unsignedTxTo [100, 1000]) ⟨48564, 49664, 1100⟩ rfl (by decide) (by decide)
      (by decide)).1, rfl⟩

/-! ## C7: no negative output -/

/-- Claim C7, as stated, fails in its account of the fee.  At fee rate `MaxInt64` the
product `vsize * FeeRate` overflows, the call succeeds, and the fee still to subtract is
-104 when the subtraction loop starts.  At fee rate 2, with requested values
`MinInt64 + 272` and -5 and fee 272, the call succeeds and the fee still to subtract
after the first iteration is `MinInt64`. -/
theorem outstanding_fee_counterexample :
    (forgeTx testLib (oneInput 49664) (oneOutput 1000) feeRateMaxParams
        = .ok (unsignedTx 1000, ⟨48664, 49664, 1000⟩) ∧
      ForgeTx testLib (oneInput 49664) (oneOutput 1000) feeRateMaxParams
        = .ok (unsignedTx 1104, ⟨48560, 49664, 1104⟩) ∧
      (((oneOutput 1000).take 0).foldl feeStep
        (calculatedFee testLib (unsignedTx 1000) feeRateMaxParams, [])).1 = -104) ∧
    (forgeTx testLib (oneInput MaxInt64) [⟨MinInt64 + 272, p2sh1⟩, ⟨-5, p2sh1⟩] testParams
        = .ok (unsignedTxTo [MinInt64 + 272, -5], ⟨-268, MaxInt64, MinInt64 + 267⟩) ∧
      ForgeTx testLib (oneInput MaxInt64) [⟨MinInt64 + 272, p2sh1⟩, ⟨-5, p2sh1⟩] testParams
        = .ok (unsignedTxTo [MaxInt64 - 4], ⟨4, MaxInt64, MaxInt64 - 4⟩) ∧
      calculatedFee testLib (unsignedTxTo [MinInt64 + 272, -5]) testParams = 272 ∧
      (([(⟨MinInt64 + 272, p2sh1⟩ : ForgeTxOut), ⟨-5, p2sh1⟩].take 1).foldl feeStep
        (calculatedFee testLib (unsignedTxTo [MinInt64 + 272, -5]) testParams, [])).1
          = MinInt64) :=
  ⟨⟨rfl, rfl, rfl⟩, ⟨rfl, rfl, rfl, rfl⟩⟩

/-- Claim C7, amended. Whatever values were requested, every output of a transaction that
`ForgeTx` returns has a value that is not negative: the loop keeps an output only when
its value less the fee still to subtract, as 64-bit arithmetic yields it, is not
negative.  The fee still to subtract is not negative after any number of iterations of
the loop when the fee `vsize * FeeRate` of the provisional transaction does not
overflow an `int` and no requested value is negative. -/
theorem returned_outputs_nonneg (lib : Btcd) (txins : List ForgeTxIn)
    (txouts : List ForgeTxOut) (params : Params) (tx : MsgTx) (s : ForgeSummary)
    (h : ForgeTx lib txins txouts params = .ok (tx, s)) :
    (∀ o ∈ tx.TxOut, 0 ≤ o.Value) ∧
      ∃ tx0 s0, forgeTx lib txins txouts params = .ok (tx0, s0) ∧
        txOutsWithFee (calculatedFee lib tx0 params) txouts ≠ [] ∧
        (∀ o ∈ txOutsWithFee (calculatedFee lib tx0 params) txouts, 0 ≤ o.Value) ∧
        tx.TxOut.map (fun o => o.Value)
          = (txOutsWithFee (calculatedFee lib tx0 params) txouts).map (fun o => o.Value) ∧
        (((vSize lib tx0 : Nat) : Int) * params.FeeRate ≤ MaxInt64 →
          (∀ o ∈ txouts, 0 ≤ o.Value ∧ IsInt64 o.Value) →
          ∀ k, 0 ≤ ((txouts.take k).foldl feeStep (calculatedFee lib tx0 params, [])).1) := by
  obtain ⟨tx0, s0, hprov, hne, hfinal⟩ := ForgeTx_ok lib txins txouts params tx s h
  have hval := forgeTx_totalOut lib txins _ params tx s hfinal
  constructor
  · intro o ho
    have hmem : o.Value ∈ tx.TxOut.map (fun o => o.Value) := List.mem_map.mpr ⟨o, ho, rfl⟩
    rw [hval] at hmem
    obtain ⟨r, hr, hro⟩ := List.mem_map.mp hmem
    rw [← hro]
    exact txOutsWithFee_nonneg txouts _ r hr
  · refine ⟨tx0, s0, hprov, hne, txOutsWithFee_nonneg txouts _, hval, fun hfit hall k => ?_⟩
    obtain ⟨_, _, hrate, _⟩ := forgeTx_ok lib txins txouts params tx0 s0 hprov
    obtain ⟨_, hfee0, hfeeint⟩ := calculatedFee_eq lib tx0 params hrate hfit
    exact foldl_feeStep_fee_nonneg _ _ _
      (fun o ho => hall o (List.mem_of_mem_take ho)) hfee0 hfeeint

/-- Claim C7 amended, witness: Scenario A without signing returns one output of value
49456, and the fee still to subtract, 208 at the start, is never negative. -/
theorem returned_outputs_nonneg_witness :
    (∀ o ∈ (unsignedTx 49456).TxOut, 0 ≤ o.Value) ∧
      ∃ tx0 s0, forgeTx testLib (oneInput 49664) (oneOutput 49664) testParams = .ok (tx0, s0) ∧
        txOutsWithFee (calculatedFee testLib tx0 testParams) (oneOutput 49664) ≠ [] ∧
        (∀ o ∈ txOutsWithFee (calculatedFee testLib tx0 testParams) (oneOutput 49664),
          0 ≤ o.Value) ∧
        (unsignedTx 49456).TxOut.map (fun o => o.Value)
          = (txOutsWithFee (calculatedFee testLib tx0 testParams) (oneOutput 49664)).map
              (fun o => o.Value) ∧
        (((vSize testLib tx0 : Nat) : Int) * testParams.FeeRate ≤ MaxInt64 →
          (∀ o ∈ oneOutput 49664, 0 ≤ o.Value ∧ IsInt64 o.Value) →
          ∀ k, 0 ≤ (((oneOutput 49664).take k).foldl feeStep
            (calculatedFee testLib tx0 testParams, [])).1) :=
  returned_outputs_nonneg testLib (oneInput 49664) (oneOutput 49664) testParams
    (unsignedTx 49456) ⟨208, 49664, 49456⟩ rfl

/-! ## Panics -/

theorem length_clearWitnessesFrom :
    ∀ (l : List TxIn) (i : Nat), (clearWitnessesFrom i l).length = l.length := by
  intro l
  induction l with
  | nil => intro i; simp [clearWitnessesFrom]
  | cons t ts ih =>
    intro i
    cases i with
    | zero => simp [clearWitnessesFrom, ih]
    | succ i => simp [clearWitnessesFrom, ih]

/-- With every key present and as many inputs in the transaction as were requested, the
signing loop does not panic. -/
theorem signLoop_no_panic (lib : Btcd) (txins : List ForgeTxIn) (prev : PrevOuts)
    (hkeys : ∀ t ∈ txins, t.WIFPrivKey ≠ none) :
    ∀ (len k : Nat) (tx : MsgTx), tx.TxIn.length = k + len → txins.length = k + len →
      signLoop lib txins prev (List.range' k len) tx ≠ .error .panic := by
  intro len
  induction len with
  | zero => intro k tx _ _ h; simp [signLoop] at h
  | succ len ih =>
    intro k tx h1 h2 h
    rw [List.range'_succ] at h
    have hk1 : k < tx.TxIn.length := by omega
    have hk2 : k < txins.length := by omega
    have e1 : tx.TxIn[k]? = some tx.TxIn[k] := List.getElem?_eq_getElem hk1
    have e2 : txins[k]? = some txins[k] := List.getElem?_eq_getElem hk2
    have hkey := hkeys txins[k] (List.getElem_mem hk2)
    obtain ⟨wif, hwif⟩ := Option.ne_none_iff_exists'.mp hkey
    simp only [signLoop, e1, e2, hwif] at h
    split at h
    · simp at h
    · split at h
      · simp at h
      · split at h
        · simp at h
        · refine ih (k + 1) _ ?_ (by omega) h
          simp only [MsgTx.setWitness, List.length_modify]
          omega

theorem encoded_key_present (lib : Btcd) (params : Params) (hs : params.NeedToSign = true) :
    ∀ (txins : List ForgeTxIn) (ins : List TxIn),
      List.Forall₂ (EncodedBy lib params) txins ins → ∀ t ∈ txins, t.WIFPrivKey ≠ none := by
  intro txins ins hall
  induction hall with
  | nil => intro t ht; simp at ht
  | @cons a b l1 l2 hhead _ ih =>
    intro t ht
    rcases List.mem_cons.mp ht with h | h
    · subst h
      obtain ⟨m0, m1, hc⟩ := hhead
      obtain ⟨wp, hwp, _⟩ := (createTxIn_ok lib t m0 m1 params b hc).2.2 hs
      intro hnone
      simp [GetWitnessProgramFromPrivateKey, hnone] at hwp
    · exact ih t h

/-- The only panic of `forgeTx`: signing is requested and the key of an input is absent. -/
theorem forgeTx_panic (lib : Btcd) (txins : List ForgeTxIn) (txouts : List ForgeTxOut)
    (params : Params) (h : forgeTx lib txins txouts params = .error .panic) :
    params.NeedToSign = true ∧ ∃ t ∈ txins, t.WIFPrivKey = none := by
  unfold forgeTx at h
  split at h
  · simp at h
  · split at h
    · simp at h
    · split at h
      · simp at h
      · rename_i net hn
        split at h
        · rename_i f hin
          simp only [Except.error.injEq] at h
          subst h
          rcases inputsLoop_error lib params _ _ _ hin with
            ⟨_, _, he⟩ | ⟨_, he⟩ | ⟨_, hs, hk | hnone⟩
          · simp at he
          · simp at he
          · exact ⟨hs, hk⟩
          · simp [hn] at hnone
        · rename_i inputsSum ins prev hin
          split at h
          · rename_i f hout
            simp only [Except.error.injEq] at h
            subst h
            obtain ⟨_, he⟩ := outputsLoop_error lib _ _ _ _ hout
            simp at he
          · split at h
            · simp at h
            · split at h
              · rename_i hs
                dsimp only at h
                split at h
                · rename_i f hsign
                  simp only [Except.error.injEq] at h
                  subst h
                  obtain ⟨_, new, hnew, hall⟩ := inputsLoop_ok lib params _ _ _ _ _ _ _ hin
                  simp only [List.nil_append] at hnew
                  subst hnew
                  have hkeys := encoded_key_present lib params hs txins ins hall
                  rw [List.range_eq_range'] at hsign
                  exact absurd hsign (signLoop_no_panic lib txins prev hkeys _ 0 _ (by simp)
                    (by simpa using hall.length_eq))
                · simp at h
              · simp at h

/-- The only panic of `ForgeTx`: signing is requested and the key of an input is absent. -/
theorem ForgeTx_panic (lib : Btcd) (txins : List ForgeTxIn) (txouts : List ForgeTxOut)
    (params : Params) (h : ForgeTx lib txins txouts params = .error .panic) :
    params.NeedToSign = true ∧ ∃ t ∈ txins, t.WIFPrivKey = none := by
  unfold ForgeTx at h
  split at h
  · rename_i f h0
    simp only [Except.error.injEq] at h
    subst h
    exact forgeTx_panic lib txins txouts params h0
  · dsimp only at h
    split at h
    · simp at h
    · exact forgeTx_panic lib txins _ params h

/-! ## C6: overspend -/

/-- When the requested outputs total more than the inputs, both totals being values of
`int`, `forgeTx` returns no transaction; it returns an error unless it panics on an
absent key with `NeedToSign`. -/
theorem forgeTx_overspend (lib : Btcd) (txins : List ForgeTxIn) (txouts : List ForgeTxOut)
    (params : Params) (hover : sumInputs txins < sumOutputs txouts)
    (hin : IsInt64 (sumInputs txins)) (hout : IsInt64 (sumOutputs txouts)) :
    (∃ e, forgeTx lib txins txouts params = .error (.err e)) ∨
      (forgeTx lib txins txouts params = .error .panic ∧ params.NeedToSign = true ∧
        ∃ t ∈ txins, t.WIFPrivKey = none) := by
  cases hr : forgeTx lib txins txouts params with
  | ok r =>
    obtain ⟨tx, s⟩ := r
    obtain ⟨_, _, _, _, _, _, _, _, _, _, _, hle, _⟩ := forgeTx_ok lib txins txouts params tx s hr
    rw [wrapInt_of_isInt64 _ hin, wrapInt_of_isInt64 _ hout] at hle
    omega
  | error f =>
    cases f with
    | err e => exact Or.inl ⟨e, rfl⟩
    | panic => exact Or.inr ⟨rfl, forgeTx_panic lib txins txouts params hr⟩

/-- Claim C6, as stated, fails when a sum overflows: two outputs requesting `MaxInt64`
each, against one input worth 1000, total far more than the inputs, yet their sum wraps
to -2, the comparison `outputsSum > inputsSum` lets both passes through, and `ForgeTx`
returns a transaction and a summary with `TotalOutput = -274` and `Fee = 1274`. -/
theorem overspend_counterexample :
    sumInputs (oneInput 1000) < sumOutputs [⟨MaxInt64, p2sh1⟩, ⟨MaxInt64, p2sh1⟩] ∧
      ForgeTx testLib (oneInput 1000) [⟨MaxInt64, p2sh1⟩, ⟨MaxInt64, p2sh1⟩] testParams
        = .ok (unsignedTxTo [MaxInt64 - 272, MaxInt64], ⟨1274, 1000, -274⟩) :=
  ⟨by decide, rfl⟩

/-- Claim C6, amended. When the requested outputs total more than the input UTXO values,
both totals being small enough not to overflow an `int`, `ForgeTx` returns neither a
transaction nor a summary: it returns an error whenever it returns at all, the one call
that does not return being the one that panics on an absent key with signing
requested. -/
theorem overspend_returns_error (lib : Btcd) (txins : List ForgeTxIn)
    (txouts : List ForgeTxOut) (params : Params)
    (hover : sumInputs txins < sumOutputs txouts)
    (hin : IsInt64 (sumInputs txins)) (hout : IsInt64 (sumOutputs txouts)) :
    (∀ tx s, ForgeTx lib txins txouts params ≠ .ok (tx, s)) ∧
      ((∃ e, ForgeTx lib txins txouts params = .error (.err e)) ∨
        (ForgeTx lib txins txouts params = .error .panic ∧ params.NeedToSign = true ∧
          ∃ t ∈ txins, t.WIFPrivKey = none)) := by
  have hmain : (∃ e, ForgeTx lib txins txouts params = .error (.err e)) ∨
      (ForgeTx lib txins txouts params = .error .panic ∧ params.NeedToSign = true ∧
        ∃ t ∈ txins, t.WIFPrivKey = none) := by
    rcases forgeTx_overspend lib txins txouts params hover hin hout with
      ⟨e, he⟩ | ⟨hp, hs, hk⟩
    · left
      refine ⟨e, ?_⟩
      unfold ForgeTx
      rw [he]
    · right
      refine ⟨?_, hs, hk⟩
      unfold ForgeTx
      rw [hp]
  refine ⟨fun tx s hok => ?_, hmain⟩
  rcases hmain with ⟨e, he⟩ | ⟨hp, _, _⟩
  · rw [he] at hok
    simp at hok
  · rw [hp] at hok
    simp at hok

/-- Claim C6 amended, witness: the inputs 500, 100, 100, 100, 100 of the test against one
output of 5000 return an error. -/
theorem overspend_returns_error_witness :
    ForgeTx testLib insufficientInputs (oneOutput 5000) testParams
        = .error (.err (.outputsSumGreater 5000 900)) ∧
      (∀ tx s, ForgeTx testLib insufficientInputs (oneOutput 5000) testParams ≠ .ok (tx, s)) ∧
      ((∃ e, ForgeTx testLib insufficientInputs (oneOutput 5000) testParams
          = .error (.err e)) ∨
        (ForgeTx testLib insufficientInputs (oneOutput 5000) testParams = .error .panic ∧
          testParams.NeedToSign = true ∧ ∃ t ∈ insufficientInputs, t.WIFPrivKey = none)) :=
  ⟨rfl, overspend_returns_error testLib insufficientInputs (oneOutput 5000) testParams
    (by decide) (by decide) (by decide)⟩

/-! ## C8: signing and verification -/

/-- Claim C8. With `NeedToSign` true: a transaction that `ForgeTx` returns has one input
per requested input and, for every input index `i`, the witness of input `i` is the one
`txscript.WitnessSignature` returned and the script engine, run on the locking script
and value of the UTXO of input `i` after that witness was set, executed without error.
So when signing or script execution fails for an input no transaction is returned; and
with every key present the call then returns an error. -/
theorem returned_inputs_verified (lib : Btcd) (txins : List ForgeTxIn)
    (txouts : List ForgeTxOut) (params : Params) (hsign : params.NeedToSign = true) :
    (∀ tx s, ForgeTx lib txins txouts params = .ok (tx, s) →
      tx.TxIn.length = txins.length ∧
        ∃ sum ins prev, inputsLoop lib params txins (0, [], []) = .ok (sum, ins, prev) ∧
          ∀ i, i < txins.length → SignedAndVerified lib txins prev tx i) ∧
    ((∀ t ∈ txins, t.WIFPrivKey ≠ none) →
      (∃ tx s, ForgeTx lib txins txouts params = .ok (tx, s)) ∨
        ∃ e, ForgeTx lib txins txouts params = .error (.err e)) := by
  constructor
  · intro tx s h
    obtain ⟨tx0, s0, _, _, hfinal⟩ := ForgeTx_ok lib txins txouts params tx s h
    obtain ⟨_, _, _, net, ins, prev, outs, _, hin, hall, _, _, _, hclear, _, hver⟩ :=
      forgeTx_ok lib txins _ params tx s hfinal
    refine ⟨?_, _, ins, prev, hin, hver hsign⟩
    have h1 : (clearWitnessesFrom 0 tx.TxIn).length = ins.length := by
      have := congrArg MsgTx.TxIn hclear
      simp only [MsgTx.clearWitnessFrom] at this
      rw [this]
    rw [length_clearWitnessesFrom] at h1
    rw [h1]
    exact hall.length_eq.symm
  · intro hkeys
    cases hr : ForgeTx lib txins txouts params with
    | ok r => exact Or.inl ⟨r.1, r.2, rfl⟩
    | error f =>
      cases f with
      | err e => exact Or.inr ⟨e, rfl⟩
      | panic =>
        obtain ⟨_, t, ht, hk⟩ := ForgeTx_panic lib txins txouts params hr
        exact absurd hk (hkeys t ht)

/-- Claim C8, witness: Scenario A with signing requested, in the library instance of the
scenarios. -/
theorem returned_inputs_verified_witness :
    ForgeTx testLib (oneInput 49664) (oneOutput 49664) signingParams
        = .ok (signedTx 49398, ⟨266, 49664, 49398⟩) ∧
      (signedTx 49398).TxIn.length = (oneInput 49664).length ∧
      ∃ sum ins prev,
        inputsLoop testLib signingParams (oneInput 49664) (0, [], []) = .ok (sum, ins, prev) ∧
          ∀ i, i < (oneInput 49664).length →
            SignedAndVerified testLib (oneInput 49664) prev (signedTx 49398) i :=
  ⟨rfl, (returned_inputs_verified testLib (oneInput 49664) (oneOutput 49664) signingParams
    rfl).1 (signedTx 49398) ⟨266, 49664, 49398⟩ rfl⟩

/-! ## C9: preconditions -/

/-- Claim C9. When the input list is empty, the output list is empty, `FeeRate < 1` or
`Network` is nil, `ForgeTx` returns an error and no transaction; the error is one of
the three precondition errors and is the same for every library, so it is decided
before any input is encoded or any address is resolved. -/
theorem preconditions_enforced (txins : List ForgeTxIn) (txouts : List ForgeTxOut)
    (params : Params)
    (h : txins = [] ∨ txouts = [] ∨ params.FeeRate < 1 ∨ params.Network = none) :
    ∃ e, (e = .notEnoughTxInsOrTxOuts txins.length txouts.length ∨
          e = .invalidFeeRate params.FeeRate ∨ e = .networkNil) ∧
      ∀ lib : Btcd, ForgeTx lib txins txouts params = .error (.err e) ∧
        forgeTx lib txins txouts params = .error (.err e) := by
  by_cases hlen : txins.length = 0 ∨ txouts.length = 0
  · refine ⟨_, Or.inl rfl, fun lib => ?_⟩
    have hf : forgeTx lib txins txouts params
        = .error (.err (.notEnoughTxInsOrTxOuts txins.length txouts.length)) := by
      unfold forgeTx
      rw [if_pos hlen]
    exact ⟨by unfold ForgeTx; rw [hf], hf⟩
  · by_cases hfee : params.FeeRate < 1
    · refine ⟨_, Or.inr (Or.inl rfl), fun lib => ?_⟩
      have hf : forgeTx lib txins txouts params
          = .error (.err (.invalidFeeRate params.FeeRate)) := by
        unfold forgeTx
        rw [if_neg hlen, if_pos hfee]
      exact ⟨by unfold ForgeTx; rw [hf], hf⟩
    · have hnet : params.Network = none := by
        rcases h with h | h | h | h
        · exact absurd (Or.inl (by simp [h])) hlen
        · exact absurd (Or.inr (by simp [h])) hlen
        · exact absurd h hfee
        · exact h
      refine ⟨_, Or.inr (Or.inr rfl), fun lib => ?_⟩
      have hf : forgeTx lib txins txouts params = .error (.err .networkNil) := by
        unfold forgeTx
        rw [if_neg hlen, if_neg hfee, hnet]
      exact ⟨by unfold ForgeTx; rw [hf], hf⟩

/-- Claim C9, witness: the test case "error, input is empty", no input and one output
requesting 0. -/
theorem preconditions_enforced_witness :
    ∃ e, (e = .notEnoughTxInsOrTxOuts ([] : List ForgeTxIn).length (oneOutput 0).length ∨
          e = .invalidFeeRate testParams.FeeRate ∨ e = .networkNil) ∧
      ∀ lib : Btcd, ForgeTx lib [] (oneOutput 0) testParams = .error (.err e) ∧
        forgeTx lib [] (oneOutput 0) testParams = .error (.err e) :=
  preconditions_enforced [] (oneOutput 0) testParams (Or.inl rfl)

/-! ## C10: the unlocking script and the exported helper -/

theorem encoded_scripts (lib : Btcd) (params : Params) (hs : params.NeedToSign = true) :
    ∀ (l : List TxIn) (txins : List ForgeTxIn),
      List.Forall₂ (EncodedBy lib params) txins (clearWitnessesFrom 0 l) →
      List.Forall₂ (fun fin tin =>
        ∃ wp, GetWitnessProgramFromPrivateKey lib fin.WIFPrivKey params.Network = .ok wp ∧
          tin.SignatureScript = [22] ++ wp) txins l := by
  intro l
  induction l with
  | nil =>
    intro txins h
    simp only [clearWitnessesFrom] at h
    cases h
    exact List.Forall₂.nil
  | cons t ts ih =>
    intro txins h
    simp only [clearWitnessesFrom] at h
    cases h with
    | @cons a _ as _ hhead htail =>
      obtain ⟨m0, m1, hc⟩ := hhead
      obtain ⟨wp, hwp, hscript⟩ := (createTxIn_ok lib a m0 m1 params _ hc).2.2 hs
      exact List.Forall₂.cons ⟨wp, hwp, hscript⟩ (ih as htail)

/-- Claim C10. When signing is requested, the inputs of a transaction that `ForgeTx`
returns correspond one to one, in order, to the requested inputs, and the unlocking
script of each is the single byte 22 followed by exactly the witness program that
`GetWitnessProgramFromPrivateKey` returns for the key of that input and
`params.Network`. -/
theorem signature_script_is_witness_program (lib : Btcd) (txins : List ForgeTxIn)
    (txouts : List ForgeTxOut) (params : Params) (tx : MsgTx) (s : ForgeSummary)
    (hsign : params.NeedToSign = true)
    (h : ForgeTx lib txins txouts params = .ok (tx, s)) :
    List.Forall₂ (fun fin tin =>
      ∃ wp, GetWitnessProgramFromPrivateKey lib fin.WIFPrivKey params.Network = .ok wp ∧
        tin.SignatureScript = [22] ++ wp) txins tx.TxIn := by
  obtain ⟨tx0, s0, _, _, hfinal⟩ := ForgeTx_ok lib txins txouts params tx s h
  obtain ⟨_, _, _, net, ins, prev, outs, _, _, hall, _, _, _, hclear, _, _⟩ :=
    forgeTx_ok lib txins _ params tx s hfinal
  have h1 : clearWitnessesFrom 0 tx.TxIn = ins := by
    have := congrArg MsgTx.TxIn hclear
    simpa [MsgTx.clearWitnessFrom] using this
  rw [← h1] at hall
  exact encoded_scripts lib params hsign tx.TxIn txins hall

/-- Claim C10, witness: Scenario A with signing requested; the unlocking script is 22
followed by the 22-byte witness program of the key. -/
theorem signature_script_is_witness_program_witness :
    GetWitnessProgramFromPrivateKey testLib (some wifPrivKey1) (some TestNet3Params)
        = .ok ([0x00, 0x14, 2, 1] ++ List.replicate 18 0) ∧
      List.Forall₂ (fun fin tin =>
        ∃ wp, GetWitnessProgramFromPrivateKey testLib fin.WIFPrivKey signingParams.Network
            = .ok wp ∧ tin.SignatureScript = [22] ++ wp)
        (oneInput 49664) (signedTx 49398).TxIn :=
  ⟨rfl, signature_script_is_witness_program testLib (oneInput 49664) (oneOutput 49664)
    signingParams (signedTx 49398) ⟨266, 49664, 49398⟩ rfl rfl⟩

/-! ## C11: an absent signing key -/

theorem inputsLoop_append (lib : Btcd) (params : Params) :
    ∀ (pre post : List ForgeTxIn) (st : Int × List TxIn × PrevOuts),
      inputsLoop lib params (pre ++ post) st =
        match inputsLoop lib params pre st with
        | .error f => .error f
        | .ok st1 => inputsLoop lib params post st1 := by
  intro pre
  induction pre with
  | nil => intro post st; simp [inputsLoop]
  | cons t rest ih =>
    intro post st
    obtain ⟨sum, ins, m⟩ := st
    simp only [List.cons_append, inputsLoop]
    cases hc : createTxIn lib t m params with
    | error f => rfl
    | ok r =>
      obtain ⟨tin, m2⟩ := r
      exact ih post _

/-- Without signing, `createTxIn` does not read the key of the input. -/
theorem createTxIn_unsigned_ignores_key (lib : Btcd) (utxo : UTXO) (k1 k2 : Option WIF)
    (m : PrevOuts) (params : Params) (hsign : params.NeedToSign = false) :
    createTxIn lib ⟨utxo, k1⟩ m params = createTxIn lib ⟨utxo, k2⟩ m params := by
  simp [createTxIn, hsign]

/-- Claim C11, the code at an absent key. With `NeedToSign` true, `createTxIn` on an
input whose key is absent (and whose transaction id parses) builds no unlocking script:
it reads the key and panics.  A call of `forgeTx` or `ForgeTx` that passes the
preconditions and encodes the inputs before that one panics with it: the input is not
treated in no-sign mode. -/
theorem absent_key_panics (lib : Btcd) (pre post : List ForgeTxIn) (t : ForgeTxIn)
    (txouts : List ForgeTxOut) (params : Params) (st : Int × List TxIn × PrevOuts) (h : Bytes)
    (hsign : params.NeedToSign = true) (hkey : t.WIFPrivKey = none)
    (hh : lib.NewHashFromStr t.Utxo.TxID = .ok h)
    (hpre : inputsLoop lib params pre (0, [], []) = .ok st)
    (houts : txouts ≠ []) (hfee : 1 ≤ params.FeeRate) (hnet : params.Network ≠ none) :
    (∀ m, createTxIn lib t m params = .error .panic) ∧
      forgeTx lib (pre ++ t :: post) txouts params = .error .panic ∧
      ForgeTx lib (pre ++ t :: post) txouts params = .error .panic := by
  have hc : ∀ m, createTxIn lib t m params = .error .panic := by
    intro m
    simp [createTxIn, hh, hsign, hkey]
  have hloop : inputsLoop lib params (pre ++ t :: post) (0, [], []) = .error .panic := by
    rw [inputsLoop_append, hpre]
    obtain ⟨sum, ins, m⟩ := st
    simp only [inputsLoop, hc]
  have hf : forgeTx lib (pre ++ t :: post) txouts params = .error .panic := by
    obtain ⟨net, hn⟩ := Option.ne_none_iff_exists'.mp hnet
    unfold forgeTx
    have hlen : ¬ ((pre ++ t :: post).length = 0 ∨ txouts.length = 0) := by
      intro hl
      rcases hl with hl | hl
      · simp at hl
      · exact houts (List.length_eq_zero.mp hl)
    rw [if_neg hlen, if_neg (by omega), hn]
    simp only [hloop]
  refine ⟨hc, hf, ?_⟩
  unfold ForgeTx
  rw [hf]

/-- Claim C11, witness: one input without a key, one output requesting 50, signing
requested. -/
theorem absent_key_panics_witness :
    (∀ m, createTxIn testLib ⟨⟨prevTxId1, 0, 100, pkScript1⟩, none⟩ m signingParams
        = .error .panic) ∧
      forgeTx testLib keylessInput (oneOutput 50) signingParams = .error .panic ∧
      ForgeTx testLib keylessInput (oneOutput 50) signingParams = .error .panic :=
  absent_key_panics testLib [] [] ⟨⟨prevTxId1, 0, 100, pkScript1⟩, none⟩ (oneOutput 50)
    signingParams (0, [], []) prevHash1 rfl rfl rfl rfl (by decide) (by decide) (by decide)

/-! ## C12: the length of the placeholder script -/

/-- With signing requested, the unlocking script `createTxIn` builds is the byte 22
followed by the witness program: 23 bytes, and an input of 64 bytes in the wire
encoding, when the witness program has 22 bytes. -/
theorem signed_script_length (lib : Btcd) (txin : ForgeTxIn) (m m1 : PrevOuts)
    (params : Params) (tin : TxIn) (wp : Bytes) (hsign : params.NeedToSign = true)
    (h : createTxIn lib txin m params = .ok (tin, m1))
    (hwp : GetWitnessProgramFromPrivateKey lib txin.WIFPrivKey params.Network = .ok wp)
    (hlen : wp.length = 22) :
    tin.SignatureScript.length = 23 ∧ tin.SerializeSize = 64 := by
  obtain ⟨wp1, hwp1, hscript⟩ := (createTxIn_ok lib txin m m1 params tin h).2.2 hsign
  rw [hwp] at hwp1
  simp only [Except.ok.injEq] at hwp1
  subst hwp1
  simp [TxIn.SerializeSize, VarIntSerializeSize, hscript, hlen]

/-- Claim C12, the code without signing. The unlocking script `createTxIn` builds when
signing is not requested is the push byte 22 followed by the 20 bytes of the
placeholder: 21 bytes in total, not 23, and an input of 62 bytes in the wire encoding
where the signed input has 64. -/
theorem placeholder_script_length (lib : Btcd) (txin : ForgeTxIn) (m m1 : PrevOuts)
    (params : Params) (tin : TxIn) (hsign : params.NeedToSign = false)
    (h : createTxIn lib txin m params = .ok (tin, m1)) :
    tin.SignatureScript = [22] ++ placeholderWitnessProgram ∧
      (tin.SignatureScript.drop 1).length = 20 ∧
      tin.SignatureScript.length = 21 ∧ tin.SerializeSize = 62 := by
  have hscript := (createTxIn_ok lib txin m m1 params tin h).2.1 hsign
  simp [TxIn.SerializeSize, VarIntSerializeSize, hscript, placeholderWitnessProgram]

/-- Claim C12, witness: the input of the test table, encoded without signing; the same
input encoded with signing has a script of 23 bytes, and the stripped sizes of the two
transactions are 104 and 106. -/
theorem placeholder_script_length_witness :
    (unsignedTxIn.SignatureScript = [22] ++ placeholderWitnessProgram ∧
      (unsignedTxIn.SignatureScript.drop 1).length = 20 ∧
      unsignedTxIn.SignatureScript.length = 21 ∧ unsignedTxIn.SerializeSize = 62) ∧
    signedTxIn.SignatureScript.length = 23 ∧
    (unsignedTx 49664).baseSize = 104 ∧ (signedTx 49664).baseSize = 106 :=
  ⟨placeholder_script_length testLib ⟨⟨prevTxId1, 0, 49664, pkScript1⟩, some wifPrivKey1⟩ []
    [(⟨prevHash1, 0⟩, ⟨49664, pkScript1⟩)] testParams unsignedTxIn rfl rfl, rfl, rfl, rfl⟩

/-! ## C13: the locking script of a witness program -/

/-- Claim C13. `GetPkScriptFromWitnessProgram` of a witness program `wp` is the byte
0xa9 (`OP_HASH160`), the byte 0x14 (`OP_DATA_20`), the bytes `Hash160 wp` and the byte
0x87 (`OP_EQUAL`), in that order: 23 bytes, `Hash160` yielding 20 bytes.  It is a
function of `wp` alone: equal witness programs give equal locking scripts. -/
theorem pkScript_of_witness_program (lib : Btcd) (wp : Bytes)
    (hlen : (lib.Hash160 wp).length = 20) :
    GetPkScriptFromWitnessProgram lib wp = [0xa9, 0x14] ++ lib.Hash160 wp ++ [0x87] ∧
      (GetPkScriptFromWitnessProgram lib wp).length = 23 ∧
      (GetPkScriptFromWitnessProgram lib wp).take 2 = [0xa9, 0x14] ∧
      ((GetPkScriptFromWitnessProgram lib wp).drop 2).take 20 = lib.Hash160 wp ∧
      (GetPkScriptFromWitnessProgram lib wp).drop 22 = [0x87] ∧
      ∀ wp2, wp2 = wp →
        GetPkScriptFromWitnessProgram lib wp2 = GetPkScriptFromWitnessProgram lib wp := by
  have hdef : GetPkScriptFromWitnessProgram lib wp = [0xa9, 0x14] ++ lib.Hash160 wp ++ [0x87] :=
    rfl
  refine ⟨hdef, ?_, ?_, ?_, ?_, fun wp2 h2 => by rw [h2]⟩
  · simp [hdef, hlen]
  · simp [hdef]
  · rw [hdef]
    simp only [List.append_assoc, List.cons_append, List.nil_append, List.drop_succ_cons,
      List.drop_zero]
    rw [List.take_append_of_le_length (by omega)]
    exact List.take_of_length_le (by omega)
  · rw [hdef]
    simp only [List.append_assoc, List.cons_append, List.nil_append, List.drop_succ_cons]
    rw [List.drop_append_of_le_length (by omega)]
    rw [List.drop_of_length_le (by omega)]
    rfl

theorem length_bytesLE : ∀ (n x : Nat), (bytesLE n x).length = n := by
  intro n
  induction n with
  | zero => intro x; rfl
  | succ n ih => intro x; simp [bytesLE, ih]

theorem length_foldl_ripemdBlock :
    ∀ (blocks : List Bytes) (h : List Nat), h.length = 5 →
      (blocks.foldl ripemdBlock h).length = 5 := by
  intro blocks
  induction blocks with
  | nil => intro h hh; simpa using hh
  | cons b rest ih =>
    intro h _
    simp only [List.foldl_cons]
    exact ih _ (by simp [ripemdBlock])

/-- RIPEMD-160 yields 20 bytes, so `hash160` does. -/
theorem length_hash160 (b : Bytes) : (hash160 b).length = 20 := by
  unfold hash160 ripemd160
  simp only
  generalize hst : List.foldl ripemdBlock _ _ = st
  have h5 : st.length = 5 := by
    rw [← hst]
    exact length_foldl_ripemdBlock _ _ rfl
  match st, h5 with
  | [a, b, c, d, e], _ => simp [length_bytesLE]

set_option maxRecDepth 1000000 in
/-- Claim C13, witness: with `Hash160` computed, the locking scripts of the witness
programs of the five keys of the test are the scripts `a914...87` the test expects. -/
theorem pkScript_of_witness_program_witness :
    (GetPkScriptFromWitnessProgram hashLib witnessProgram1
        = [0xa9, 0x14] ++ hashLib.Hash160 witnessProgram1 ++ [0x87] ∧
      (GetPkScriptFromWitnessProgram hashLib witnessProgram1).length = 23 ∧
      (GetPkScriptFromWitnessProgram hashLib witnessProgram1).take 2 = [0xa9, 0x14] ∧
      ((GetPkScriptFromWitnessProgram hashLib witnessProgram1).drop 2).take 20
        = hashLib.Hash160 witnessProgram1 ∧
      (GetPkScriptFromWitnessProgram hashLib witnessProgram1).drop 22 = [0x87] ∧
      ∀ wp2, wp2 = witnessProgram1 →
        GetPkScriptFromWitnessProgram hashLib wp2
          = GetPkScriptFromWitnessProgram hashLib witnessProgram1) ∧
    GetPkScriptFromWitnessProgram hashLib witnessProgram1 = pkScript1 ∧
    GetPkScriptFromWitnessProgram hashLib witnessProgram2 = pkScript2 ∧
    GetPkScriptFromWitnessProgram hashLib witnessProgram3 = pkScript3 ∧
    GetPkScriptFromWitnessProgram hashLib witnessProgram4 = pkScript4 ∧
    GetPkScriptFromWitnessProgram hashLib witnessProgram5 = pkScript5 :=
  ⟨pkScript_of_witness_program hashLib witnessProgram1 (length_hash160 witnessProgram1),
    rfl, rfl, rfl, rfl, rfl⟩

/-! ## C14: the fee actually paid -/

/-- Claim C14, as stated, fails when 64-bit arithmetic overflows.  Two outputs requesting
`MaxInt64` each against one input worth 1000 succeed at fee 272, and the summary has
`TotalOutput = -274`, not the requested total less the fee.  At fee rate `MaxInt64` the
fee the code computes for one input and one output is -104, not `vsize * FeeRate`, and
the fee paid, 48560, is below that product. -/
theorem fee_paid_counterexample :
    (ForgeTx testLib (oneInput 1000) [⟨MaxInt64, p2sh1⟩, ⟨MaxInt64, p2sh1⟩] testParams
        = .ok (unsignedTxTo [MaxInt64 - 272, MaxInt64], ⟨1274, 1000, -274⟩) ∧
      (∀ o ∈ [(⟨MaxInt64, p2sh1⟩ : ForgeTxOut), ⟨MaxInt64, p2sh1⟩], 0 ≤ o.Value) ∧
      forgeTx testLib (oneInput 1000) [⟨MaxInt64, p2sh1⟩, ⟨MaxInt64, p2sh1⟩] testParams
        = .ok (unsignedTxTo [MaxInt64, MaxInt64], ⟨1002, 1000, -2⟩) ∧
      calculatedFee testLib (unsignedTxTo [MaxInt64, MaxInt64]) testParams = 272 ∧
      (-274 : Int) ≠ sumOutputs [⟨MaxInt64, p2sh1⟩, ⟨MaxInt64, p2sh1⟩]
        - calculatedFee testLib (unsignedTxTo [MaxInt64, MaxInt64]) testParams) ∧
    (ForgeTx testLib (oneInput 49664) (oneOutput 1000) feeRateMaxParams
        = .ok (unsignedTx 1104, ⟨48560, 49664, 1104⟩) ∧
      (∀ o ∈ oneOutput 1000, 0 ≤ o.Value) ∧
      forgeTx testLib (oneInput 49664) (oneOutput 1000) feeRateMaxParams
        = .ok (unsignedTx 1000, ⟨48664, 49664, 1000⟩) ∧
      calculatedFee testLib (unsignedTx 1000) feeRateMaxParams
        ≠ ((vSize testLib (unsignedTx 1000) : Nat) : Int) * feeRateMaxParams.FeeRate ∧
      (48560 : Int)
        < ((vSize testLib (unsignedTx 1000) : Nat) : Int) * feeRateMaxParams.FeeRate ∧
      (1104 : Int) ≠ sumOutputs (oneOutput 1000)
        - ((vSize testLib (unsignedTx 1000) : Nat) : Int) * feeRateMaxParams.FeeRate) :=
  ⟨⟨rfl, by decide, rfl, rfl, by decide⟩, ⟨rfl, by decide, rfl, by decide, by decide, by decide⟩⟩

/-- Claim C14, amended. When `ForgeTx` succeeds, no requested value is negative, the
total of the input values and the total of the requested values each fit in an `int`,
and the fee `vsize * FeeRate` of the provisional transaction does not overflow an `int`:
the code computes that fee, `TotalInput` is the total of the input values, `TotalOutput`
is the requested total less the fee, `Fee` is `TotalInput` less the requested total plus
the fee, the fee paid is not below the fee, and it equals the fee exactly when the
requested outputs total the inputs. -/
theorem fee_paid (lib : Btcd) (txins : List ForgeTxIn) (txouts : List ForgeTxOut)
    (params : Params) (tx0 tx : MsgTx) (s0 s : ForgeSummary)
    (hprov : forgeTx lib txins txouts params = .ok (tx0, s0))
    (h : ForgeTx lib txins txouts params = .ok (tx, s))
    (hnonneg : ∀ o ∈ txouts, 0 ≤ o.Value)
    (hint : ∀ o ∈ txouts, IsInt64 o.Value)
    (hin : IsInt64 (sumInputs txins)) (hsum : IsInt64 (sumOutputs txouts))
    (hfit : (((lib.SerializeSizeStripped tx0 * 3 + lib.SerializeSize tx0) / 4 : Nat) : Int)
      * params.FeeRate ≤ MaxInt64) :
    calculatedFee lib tx0 params =
        (((lib.SerializeSizeStripped tx0 * 3 + lib.SerializeSize tx0) / 4 : Nat) : Int)
          * params.FeeRate ∧
      s.TotalInput = sumInputs txins ∧
      s.TotalOutput = sumOutputs txouts - calculatedFee lib tx0 params ∧
      s.Fee = (s.TotalInput - sumOutputs txouts) + calculatedFee lib tx0 params ∧
      calculatedFee lib tx0 params ≤ s.Fee ∧
      (s.Fee = calculatedFee lib tx0 params ↔ sumOutputs txouts = sumInputs txins) := by
  obtain ⟨tx1, s1, hprov1, hne, hfinal⟩ := ForgeTx_ok lib txins txouts params tx s h
  rw [hprov] at hprov1
  cases hprov1
  obtain ⟨_, _, hrate, _, _, _, _, _, _, _, _, hle0, _, _, _, _⟩ :=
    forgeTx_ok lib txins txouts params tx0 s0 hprov
  obtain ⟨_, _, _, _, _, _, _, _, _, _, _, hle1, hs, _, _, _⟩ :=
    forgeTx_ok lib txins _ params tx s hfinal
  obtain ⟨hcalc, hfee0, hfeeint⟩ := calculatedFee_eq lib tx0 params hrate hfit
  have hsumeq := sumOutputs_txOutsWithFee txouts (calculatedFee lib tx0 params)
    (fun o ho => ⟨hnonneg o ho, hint o ho⟩) hfee0 hfeeint hne
  have hso := sumOutputs_nonneg txouts hnonneg
  have hso1 := sumOutputs_nonneg (txOutsWithFee (calculatedFee lib tx0 params) txouts)
    (txOutsWithFee_nonneg txouts _)
  rw [hsumeq] at hs hle1 hso1
  rw [wrapInt_of_isInt64 _ hin] at hs hle0 hle1
  rw [wrapInt_of_isInt64 _ hsum] at hle0
  have hdiff : IsInt64 (sumOutputs txouts - calculatedFee lib tx0 params) := by
    unfold IsInt64 at hsum hfeeint ⊢
    omega
  rw [wrapInt_of_isInt64 _ hdiff] at hs hle1
  have hfee : IsInt64 (sumInputs txins - (sumOutputs txouts - calculatedFee lib tx0 params)) := by
    unfold IsInt64 at hin hsum hfeeint ⊢
    omega
  rw [wrapInt_of_isInt64 _ hfee] at hs
  subst hs
  refine ⟨hcalc, rfl, rfl, ?_, ?_, ?_⟩
  · simp only; omega
  · simp only; omega
  · simp only
    constructor <;> intro h1 <;> omega

/-- Claim C14 amended, witness: one input of 1000 and one output requesting 1000, fee
208. -/
theorem fee_paid_witness :
    calculatedFee testLib (unsignedTx 1000) testParams =
        (((testLib.SerializeSizeStripped (unsignedTx 1000) * 3
          + testLib.SerializeSize (unsignedTx 1000)) / 4 : Nat) : Int) * testParams.FeeRate ∧
      (1000 : Int) = sumInputs (oneInput 1000) ∧
      (792 : Int) = sumOutputs (oneOutput 1000)
        - calculatedFee testLib (unsignedTx 1000) testParams ∧
      (208 : Int) = ((1000 : Int) - sumOutputs (oneOutput 1000))
        + calculatedFee testLib (unsignedTx 1000) testParams ∧
      calculatedFee testLib (unsignedTx 1000) testParams ≤ (208 : Int) ∧
      ((208 : Int) = calculatedFee testLib (unsignedTx 1000) testParams ↔
        sumOutputs (oneOutput 1000) = sumInputs (oneInput 1000)) :=
  fee_paid testLib (oneInput 1000) (oneOutput 1000) testParams (unsignedTx 1000)
    (unsignedTx 792) ⟨0, 1000, 1000⟩ ⟨208, 1000, 792⟩ rfl rfl (by decide) (by decide)
    (by decide) (by decide) (by decide)

end TxForge
